import Mathlib

/-!
TwoLAME: the DVB ancillary data writer and the encode loop of the frontend.

A shallow embedding of `src/libtwolame/dvb.c` (`get_required_dvb_bits`,
`write_dvb_bits`) and of the read/encode/write loop of `main` in
`src/frontend/frontend.c`, with the properties of the specification stated
and proved over it.

Conventions.
* C `unsigned int` values are `Nat`; arithmetic that can wrap is written with
  an explicit `% 2 ^ 32`.  C `int` results of the library calls are `Int`.
* A C truth test `if (x)` on an integer is `x ≠ 0`.
* Declarations that live in headers outside the two source files
  (`bitbuffer_inline.h`, `twolame.h`) are either parameters of the model or
  are modelled from the specification and marked as such.
-/

namespace TwoLAME

/-! ## Part 1: `dvb.c` -/

/-- The `dvb_anc` member of `twolame_options`: exactly the fields that `dvb.c`
reads.  The four `*_enabled` fields are tested with `if (...)`, so any non-zero
value counts as set. -/
structure dvb_anc_options where
  drc_code : Nat
  drc_on : Nat
  dolby_sur_mode : Nat
  advanced_drc_enabled : Nat
  advanced_drc_pt0 : Nat
  advanced_drc_pt1 : Nat
  advanced_drc_pt2 : Nat
  dialnorm_enabled : Nat
  dialnorm : Nat
  reprod_enabled : Nat
  reprod_level : Nat
  acm_enabled : Nat
  acm : Nat
  acm_compr : Nat
  deriving DecidableEq, Repr

/-- The part of `twolame_options` that `dvb.c` reads: `glopts->version` and
`glopts->dvb_anc`. -/
structure twolame_options where
  version : Nat
  dvb_anc : dvb_anc_options
  deriving DecidableEq, Repr

/-- Modelled from the spec: the `bit_stream` type of `bitbuffer.h`, which is not
among the sources.  The specification describes the bit writer as an
append-only sink that packs bits most-significant-bit-first; the stream is the
sequence of bits appended so far, oldest first. -/
abbrev bit_stream := List Bool

/-- Modelled from the spec: `buffer_put1bit` of `bitbuffer_inline.h`, which is
not among the sources.  It appends a single bit.  Of an argument that is not
0 or 1 the low-order bit is taken. -/
def buffer_put1bit (bs : bit_stream) (bit : Nat) : bit_stream :=
  bs ++ [decide (bit % 2 = 1)]

/-- Modelled from the spec: `buffer_putbits` of `bitbuffer_inline.h`, which is
not among the sources.  It appends the `N` low-order bits of `val`, the most
significant of them first: bit `N-1` of `val`, then bit `N-2`, down to
bit `0`. -/
def buffer_putbits (bs : bit_stream) (val : Nat) : Nat → bit_stream
  | 0 => bs
  | j + 1 => buffer_putbits (bs ++ [decide (val / 2 ^ j % 2 = 1)]) val j

/-- The function `get_required_dvb_bits` (dvb.c, lines 38-52). -/
def get_required_dvb_bits (glopts : twolame_options) : Nat :=
  let bits := 40
  let bits := if glopts.dvb_anc.advanced_drc_enabled ≠ 0 then bits + 24 else bits
  let bits := if glopts.dvb_anc.dialnorm_enabled ≠ 0 then bits + 8 else bits
  let bits := if glopts.dvb_anc.reprod_enabled ≠ 0 then bits + 8 else bits
  let bits := if glopts.dvb_anc.acm_enabled ≠ 0 then bits + 16 else bits
  bits

/-- The function `write_dvb_bits` (dvb.c, lines 55-97): the calls on the bit stream, in the
order of the source. -/
def write_dvb_bits (glopts : twolame_options) (bs : bit_stream) : bit_stream :=
  -- dvd_ancillary_data
  let bs := buffer_putbits bs glopts.dvb_anc.drc_code 8
  let bs := buffer_put1bit bs glopts.dvb_anc.drc_on
  let bs := buffer_putbits bs 0 7
  -- extended_ancillary_data_sync
  let bs := buffer_putbits bs 0xbc 8
  -- bs_info
  let bs := buffer_putbits bs (glopts.version + 1) 2
  let bs := buffer_putbits bs glopts.dvb_anc.dolby_sur_mode 2
  let bs := buffer_putbits bs 3 4
  -- ancillary_data_status
  let bs := buffer_put1bit bs glopts.dvb_anc.advanced_drc_enabled
  let bs := buffer_put1bit bs glopts.dvb_anc.dialnorm_enabled
  let bs := buffer_put1bit bs glopts.dvb_anc.reprod_enabled
  let bs := buffer_put1bit bs 0
  let bs := buffer_put1bit bs 0
  let bs := buffer_put1bit bs glopts.dvb_anc.acm_enabled
  let bs := buffer_put1bit bs 0
  let bs := buffer_put1bit bs 0
  let bs :=
    if glopts.dvb_anc.advanced_drc_enabled ≠ 0 then
      let bs := buffer_putbits bs glopts.dvb_anc.advanced_drc_pt0 8
      let bs := buffer_putbits bs glopts.dvb_anc.advanced_drc_pt1 8
      buffer_putbits bs glopts.dvb_anc.advanced_drc_pt2 8
    else bs
  let bs :=
    if glopts.dvb_anc.dialnorm_enabled ≠ 0 then
      buffer_putbits bs glopts.dvb_anc.dialnorm 8
    else bs
  let bs :=
    if glopts.dvb_anc.reprod_enabled ≠ 0 then
      buffer_putbits bs glopts.dvb_anc.reprod_level 8
    else bs
  let bs :=
    if glopts.dvb_anc.acm_enabled ≠ 0 then
      let bs := buffer_putbits bs glopts.dvb_anc.acm 8
      buffer_putbits bs glopts.dvb_anc.acm_compr 8
    else bs
  bs

/-! ### The field layout, as the specification words it -/

/-- The `N` bits of a field holding `val`, most significant first: position `i`
of the field carries bit `N - 1 - i` of `val`. -/
def msb_first (val N : Nat) : List Bool :=
  (List.range N).map (fun i => val.testBit (N - 1 - i))

/-- The four flag-selected tails of the block, in the order of the
specification: each group is present exactly when its flag is set. -/
def dvb_conditional_fields (glopts : twolame_options) : List Bool :=
  (if glopts.dvb_anc.advanced_drc_enabled ≠ 0 then
      msb_first glopts.dvb_anc.advanced_drc_pt0 8
        ++ msb_first glopts.dvb_anc.advanced_drc_pt1 8
        ++ msb_first glopts.dvb_anc.advanced_drc_pt2 8
    else [])
  ++ (if glopts.dvb_anc.dialnorm_enabled ≠ 0 then msb_first glopts.dvb_anc.dialnorm 8 else [])
  ++ (if glopts.dvb_anc.reprod_enabled ≠ 0 then msb_first glopts.dvb_anc.reprod_level 8 else [])
  ++ (if glopts.dvb_anc.acm_enabled ≠ 0 then
        msb_first glopts.dvb_anc.acm 8 ++ msb_first glopts.dvb_anc.acm_compr 8
      else [])

/-- The ancillary block as the specification lays it out, field after field. -/
def dvb_layout (glopts : twolame_options) : List Bool :=
  msb_first glopts.dvb_anc.drc_code 8
  ++ msb_first glopts.dvb_anc.drc_on 1
  ++ msb_first 0 7
  ++ msb_first 0xBC 8
  ++ msb_first (glopts.version + 1) 2
  ++ msb_first glopts.dvb_anc.dolby_sur_mode 2
  ++ msb_first 3 4
  ++ (msb_first glopts.dvb_anc.advanced_drc_enabled 1
      ++ msb_first glopts.dvb_anc.dialnorm_enabled 1
      ++ msb_first glopts.dvb_anc.reprod_enabled 1
      ++ msb_first 0 1
      ++ msb_first 0 1
      ++ msb_first glopts.dvb_anc.acm_enabled 1
      ++ msb_first 0 1
      ++ msb_first 0 1)
  ++ dvb_conditional_fields glopts

/-- Field values that fit their widths: 8-bit codes and levels, 1-bit `drc_on`
and flags, 2-bit `dolby_sur_mode`, `version` 0 or 1. -/
def in_range (glopts : twolame_options) : Prop :=
  glopts.version ≤ 1
  ∧ glopts.dvb_anc.drc_code < 256
  ∧ glopts.dvb_anc.drc_on ≤ 1
  ∧ glopts.dvb_anc.dolby_sur_mode < 4
  ∧ glopts.dvb_anc.advanced_drc_enabled ≤ 1
  ∧ glopts.dvb_anc.advanced_drc_pt0 < 256
  ∧ glopts.dvb_anc.advanced_drc_pt1 < 256
  ∧ glopts.dvb_anc.advanced_drc_pt2 < 256
  ∧ glopts.dvb_anc.dialnorm_enabled ≤ 1
  ∧ glopts.dvb_anc.dialnorm < 256
  ∧ glopts.dvb_anc.reprod_enabled ≤ 1
  ∧ glopts.dvb_anc.reprod_level < 256
  ∧ glopts.dvb_anc.acm_enabled ≤ 1
  ∧ glopts.dvb_anc.acm < 256
  ∧ glopts.dvb_anc.acm_compr < 256

instance (glopts : twolame_options) : Decidable (in_range glopts) := by
  unfold in_range; infer_instance

/-! ### A bit reader for the layout -/

/-- Read `n` bits, most significant first, onto the accumulator `acc`; `none`
when the input is shorter than `n`. -/
def get_bits (acc : Nat) : Nat → List Bool → Option (Nat × List Bool)
  | 0, bits => some (acc, bits)
  | _ + 1, [] => none
  | n + 1, b :: bits => get_bits (2 * acc + b.toNat) n bits

/-- Read consecutive fields of the given widths, each most significant bit
first. -/
def get_fields : List Nat → List Bool → Option (List Nat × List Bool)
  | [], bits => some ([], bits)
  | w :: ws, bits =>
    match get_bits 0 w bits with
    | none => none
    | some (v, rest) =>
      match get_fields ws rest with
      | none => none
      | some (vs, rest) => some (v :: vs, rest)

/-- The fixed 40-bit head of an ancillary block, as read back. -/
structure dvb_header where
  drc_code : Nat
  drc_on : Nat
  reserved : Nat
  sync : Nat
  version_plus_1 : Nat
  dolby_sur_mode : Nat
  ancillary_data_bytes : Nat
  advanced_drc_enabled : Nat
  dialnorm_enabled : Nat
  reprod_enabled : Nat
  downmix_levels_status : Nat
  scale_factor_crc_status : Nat
  acm_enabled : Nat
  coarse_grain_timecode_status : Nat
  fine_grain_timecode_status : Nat
  deriving DecidableEq, Repr

/-- What the reader recovers from one ancillary block.  A conditional group is
`some` exactly when the status flag read from the block selects it, and then
lists its 8-bit values in stream order. -/
structure dvb_decoded where
  header : dvb_header
  advanced_drc : Option (List Nat)
  dialnorm : Option (List Nat)
  reprod_level : Option (List Nat)
  acm : Option (List Nat)
  deriving DecidableEq, Repr

/-- Read the head of the block: the fields of widths 8, 1, 7, 8, 2, 2, 4 and the
eight status bits. -/
def read_header (bits : List Bool) : Option (dvb_header × List Bool) :=
  match get_fields [8, 1, 7, 8, 2, 2, 4, 1, 1, 1, 1, 1, 1, 1, 1] bits with
  | some ([a, b, c, d, e, f, g, h, i, j, k, l, m, n, o], rest) =>
    some (⟨a, b, c, d, e, f, g, h, i, j, k, l, m, n, o⟩, rest)
  | _ => none

/-- Read a conditional group of fields when the decoded status `flag` is set. -/
def read_group (flag : Nat) (widths : List Nat) (bits : List Bool) :
    Option (Option (List Nat) × List Bool) :=
  if flag ≠ 0 then
    match get_fields widths bits with
    | some (vs, rest) => some (some vs, rest)
    | none => none
  else some (none, bits)

/-- The reader matching the fixed layout: header, status flags, then the
conditional fields that the status flags just read select.  Returns the decoded
block and the bits left over. -/
def read_dvb_bits (bits : List Bool) : Option (dvb_decoded × List Bool) :=
  match read_header bits with
  | none => none
  | some (h, bits) =>
    match read_group h.advanced_drc_enabled [8, 8, 8] bits with
    | none => none
    | some (advanced_drc, bits) =>
      match read_group h.dialnorm_enabled [8] bits with
      | none => none
      | some (dialnorm, bits) =>
        match read_group h.reprod_enabled [8] bits with
        | none => none
        | some (reprod_level, bits) =>
          match read_group h.acm_enabled [8, 8] bits with
          | none => none
          | some (acm, bits) =>
            some ({ header := h, advanced_drc, dialnorm, reprod_level, acm }, bits)

/-- The field values of a configuration as the reader should recover them:
`version + 1` in the version field, the constants of the layout, and each
conditional value present exactly when its flag is set. -/
def expected_decoding (glopts : twolame_options) : dvb_decoded :=
  { header :=
      { drc_code := glopts.dvb_anc.drc_code
        drc_on := glopts.dvb_anc.drc_on
        reserved := 0
        sync := 0xBC
        version_plus_1 := glopts.version + 1
        dolby_sur_mode := glopts.dvb_anc.dolby_sur_mode
        ancillary_data_bytes := 3
        advanced_drc_enabled := glopts.dvb_anc.advanced_drc_enabled
        dialnorm_enabled := glopts.dvb_anc.dialnorm_enabled
        reprod_enabled := glopts.dvb_anc.reprod_enabled
        downmix_levels_status := 0
        scale_factor_crc_status := 0
        acm_enabled := glopts.dvb_anc.acm_enabled
        coarse_grain_timecode_status := 0
        fine_grain_timecode_status := 0 }
    advanced_drc :=
      if glopts.dvb_anc.advanced_drc_enabled ≠ 0 then
        some [glopts.dvb_anc.advanced_drc_pt0, glopts.dvb_anc.advanced_drc_pt1,
              glopts.dvb_anc.advanced_drc_pt2]
      else none
    dialnorm :=
      if glopts.dvb_anc.dialnorm_enabled ≠ 0 then some [glopts.dvb_anc.dialnorm] else none
    reprod_level :=
      if glopts.dvb_anc.reprod_enabled ≠ 0 then some [glopts.dvb_anc.reprod_level] else none
    acm :=
      if glopts.dvb_anc.acm_enabled ≠ 0 then
        some [glopts.dvb_anc.acm, glopts.dvb_anc.acm_compr]
      else none }

/-- The value of the 8 bits found `off` bits after the start of `block`. -/
def byte_at (block : List Bool) (off : Nat) : Option Nat :=
  (get_bits 0 8 (block.drop off)).map Prod.fst

/-- The configuration `glopts` with its four enable flags replaced. -/
def set_flags (glopts : twolame_options) (advanced_drc dialnorm reprod acm : Nat) :
    twolame_options :=
  { glopts with
    dvb_anc :=
      { glopts.dvb_anc with
        advanced_drc_enabled := advanced_drc
        dialnorm_enabled := dialnorm
        reprod_enabled := reprod
        acm_enabled := acm } }

/-- A sample configuration: every flag set, distinct values in every field. -/
def sample_options : twolame_options :=
  { version := 1
    dvb_anc :=
      { drc_code := 0xA5, drc_on := 1, dolby_sur_mode := 2
        advanced_drc_enabled := 1
        advanced_drc_pt0 := 0x11, advanced_drc_pt1 := 0x22, advanced_drc_pt2 := 0x33
        dialnorm_enabled := 1, dialnorm := 0x44
        reprod_enabled := 1, reprod_level := 0x55
        acm_enabled := 1, acm := 0x66, acm_compr := 0x77 } }

/-- A sample configuration with every optional group switched off. -/
def plain_options : twolame_options :=
  { version := 0
    dvb_anc :=
      { drc_code := 0, drc_on := 0, dolby_sur_mode := 0
        advanced_drc_enabled := 0
        advanced_drc_pt0 := 0, advanced_drc_pt1 := 0, advanced_drc_pt2 := 0
        dialnorm_enabled := 0, dialnorm := 0
        reprod_enabled := 0, reprod_level := 0
        acm_enabled := 0, acm := 0, acm_compr := 0 } }

/-! ## Part 2: the encode loop of `main` in `frontend.c`

The model starts where `main` has finished its set-up (line 746): buffers
allocated, files open, `twolame_init_params` succeeded.  The collaborators
(libsndfile, libtwolame, the C library) are not part of the sources; what they
return is given by a `world`, and every call made on them is recorded, in order,
in a trace.
-/

/-- The constant `MP2_BUF_SIZE` (frontend.c, line 35). -/
def MP2_BUF_SIZE : Nat := 16384

/-- The constant `AUDIO_BUF_SIZE` (frontend.c, line 36). -/
def AUDIO_BUF_SIZE : Nat := 9210

/-- The result code `ERR_NO_ERROR` (frontend.c, line 44). -/
def ERR_NO_ERROR : Nat := 0

/-- The result code `ERR_ENCODING` (frontend.c, line 51). -/
def ERR_ENCODING : Nat := 12

/-- The result code `ERR_WRITING_OUTPUT` (frontend.c, line 52). -/
def ERR_WRITING_OUTPUT : Nat := 14

/-- What `main` finds fixed when the loop starts: the three global switches set
by `parse_args`, `sfinfo.channels`, the results of `twolame_get_framelength` and
`twolame_get_verbosity`, and the constant `TWOLAME_SAMPLES_PER_FRAME` of
`twolame.h` (a header outside the sources, hence a parameter here).
`total_frames` only feeds the text of the progress line and is left out. -/
structure settings where
  single_frame_mode : Bool
  byteswap : Bool
  channelswap : Bool
  channels : Nat
  frame_len : Nat
  verbosity : Int
  TWOLAME_SAMPLES_PER_FRAME : Nat
  deriving DecidableEq, Repr

/-- The answers of the collaborators during one pass through the `while` loop:
the samples `sf_read_short` has to deliver (16-bit patterns), the value returned
by `twolame_encode_buffer_interleaved`, and the value returned by `fwrite`. -/
structure pass where
  read : List Nat
  encode : Int
  fwrite : Nat
  deriving DecidableEq, Repr

/-- The collaborators' answers over a whole run.  After the last pass
`sf_read_short` returns 0.  `sf_error`, `flush` and `flush_fwrite` are the
values returned by `sf_error`, `twolame_encode_flush` and the `fwrite` of the
flush. -/
structure world where
  passes : List pass
  sf_error : Int
  flush : Int
  flush_fwrite : Nat
  deriving DecidableEq, Repr

/-- The lines `main` prints on `stderr`. -/
inductive message where
  | encode_error
  | write_error
  | read_error
  | progress
  | finished
  deriving DecidableEq, Repr

/-- What `main` does that is visible from outside or changes a counter: the
calls on the collaborators with their arguments and results, the two counter
updates, and the lines printed. -/
inductive event where
  | sf_read_short (items : Nat) (ret : Nat)
  | twolame_encode_buffer_interleaved (num_samples : Nat) (ret : Int)
  | fwrite (count : Int) (ret : Nat)
  | twolame_encode_flush (ret : Int)
  | add_total_bytes (n : Nat)
  | add_frame_count (n : Nat)
  | stderr (m : message)
  deriving DecidableEq, Repr

/-- Is the event a call of `sf_read_short`? -/
def event.is_read : event → Bool
  | .sf_read_short _ _ => true
  | _ => false

/-- Is the event a call of `twolame_encode_buffer_interleaved`? -/
def event.is_encode : event → Bool
  | .twolame_encode_buffer_interleaved _ _ => true
  | _ => false

/-- Is the event a call of `fwrite`? -/
def event.is_write : event → Bool
  | .fwrite _ _ => true
  | _ => false

/-- Is the event a call of `twolame_encode_flush`? -/
def event.is_flush : event → Bool
  | .twolame_encode_flush _ => true
  | _ => false

/-- Is the event an update of `total_bytes` or `frame_count`? -/
def event.is_counter_update : event → Bool
  | .add_total_bytes _ => true
  | .add_frame_count _ => true
  | _ => false

/-- The variables of `main` that the loop changes: the PCM buffer and the two
`unsigned int` counters. -/
structure driver_state where
  pcmaudio : List Nat
  frame_count : Nat
  total_bytes : Nat
  deriving DecidableEq, Repr

/-- How a run of `main` ends: the process exits through `exit(code)`, `main`
returns `code`, or an integer division by zero stops it (undefined in C;
reachable only with `sfinfo.channels = 0` or a frame length of 0). -/
inductive ending where
  | exited (code : Nat)
  | returned (code : Nat)
  | division_by_zero
  deriving DecidableEq, Repr

/-- How one pass through the `while` loop ends: the loop goes round again, the
loop is left towards line 823 (`sf_read_short` returned 0, or a `break`), or the
program stops. -/
inductive pass_end where
  | next_pass
  | leave_loop
  | stop (e : ending)
  deriving DecidableEq, Repr

/-- The two bytes of a 16-bit sample exchanged (frontend.c, lines 763-767:
`dst[0] = src[1]; dst[1] = src[0]`). -/
def swap_bytes (sample : Nat) : Nat :=
  sample % 256 * 256 + sample / 256 % 256

/-- The byte-swap `for` loop (frontend.c, lines 762-768) over the first
`samples_read` entries of the buffer. -/
def byteswap_loop (pcmaudio : List Nat) (samples_read : Nat) : List Nat :=
  (List.range samples_read).foldl
    (fun pcm i => pcm.set i (swap_bytes (pcm.getD i 0))) pcmaudio

/-- The channel-swap `for` loop (frontend.c, lines 777-781): for each `i` below
the per-channel sample count, entries `2*i` and `2*i+1` change places. -/
def channelswap_loop (pcmaudio : List Nat) (samples_read : Nat) : List Nat :=
  (List.range samples_read).foldl
    (fun pcm i =>
      let tmp := pcm.getD (2 * i) 0
      let pcm := pcm.set (2 * i) (pcm.getD (2 * i + 1) 0)
      pcm.set (2 * i + 1) tmp)
    pcmaudio

/-- The call `sf_read_short(inputfile, pcmaudio, audioReadSize)`: the samples
delivered overwrite the front of the buffer, the rest of the buffer stays. -/
def sf_read_short (pcmaudio : List Nat) (data : List Nat) : List Nat :=
  data ++ pcmaudio.drop data.length

/-- The block "Force byte swapping if requested" (frontend.c, lines 759-769). -/
def force_byteswap (cfg : settings) (pcmaudio : List Nat) (samples_read : Nat) : List Nat :=
  if cfg.byteswap then byteswap_loop pcmaudio samples_read else pcmaudio

/-- The block "Do swapping of left and right channels if requested"
(frontend.c, lines 774-782); `samples_read` is the per-channel count. -/
def force_channelswap (cfg : settings) (pcmaudio : List Nat) (samples_read : Nat) :
    List Nat :=
  if cfg.channelswap && cfg.channels = 2 then channelswap_loop pcmaudio samples_read
  else pcmaudio

/-- One pass through the `while` loop (frontend.c, lines 756-821), from the
call of `sf_read_short` in the loop condition to the end of the body.  Returns
how the pass ends, the state after it, and the events of the pass. -/
def loop_pass (cfg : settings) (audioReadSize : Nat) (st : driver_state) (p : pass) :
    pass_end × driver_state × List event :=
  -- samples_read = sf_read_short(inputfile, pcmaudio, audioReadSize)
  let data := p.read.take audioReadSize
  let samples_read := data.length
  let pcmaudio := sf_read_short st.pcmaudio data
  let ev_read := event.sf_read_short audioReadSize samples_read
  if samples_read = 0 then
    (.leave_loop, { st with pcmaudio := pcmaudio }, [ev_read])
  else
    -- Force byte swapping if requested
    let pcmaudio := force_byteswap cfg pcmaudio samples_read
    -- samples_read /= sfinfo.channels
    if cfg.channels = 0 then
      (.stop .division_by_zero, { st with pcmaudio := pcmaudio }, [ev_read])
    else
      let samples_read := samples_read / cfg.channels
      -- Do swapping of left and right channels if requested
      let pcmaudio := force_channelswap cfg pcmaudio samples_read
      -- Encode the audio to MP2
      let mp2fill_size := p.encode
      let ev_encode := event.twolame_encode_buffer_interleaved samples_read mp2fill_size
      let st := { st with pcmaudio := pcmaudio }
      -- Stop if we don't have any bytes
      if mp2fill_size = 0 then
        (.leave_loop, st, [ev_read, ev_encode])
      else if mp2fill_size < 0 then
        (.stop (.exited ERR_ENCODING), st, [ev_read, ev_encode, .stderr .encode_error])
      else
        -- Write the encoded audio out
        let bytes_out : Int := p.fwrite
        let ev_write := event.fwrite mp2fill_size p.fwrite
        if bytes_out ≠ mp2fill_size then
          (.stop (.exited ERR_WRITING_OUTPUT), st,
            [ev_read, ev_encode, ev_write, .stderr .write_error])
        else
          let st := { st with total_bytes := (st.total_bytes + bytes_out.toNat) % 2 ^ 32 }
          let ev_bytes := event.add_total_bytes bytes_out.toNat
          -- Only single frame ?
          if cfg.single_frame_mode then
            (.leave_loop, st, [ev_read, ev_encode, ev_write, ev_bytes])
          else if cfg.frame_len = 0 then
            (.stop .division_by_zero, st, [ev_read, ev_encode, ev_write, ev_bytes])
          else
            -- Display Progress
            let delta := mp2fill_size.toNat / cfg.frame_len
            let st := { st with frame_count := (st.frame_count + delta) % 2 ^ 32 }
            let evs := [ev_read, ev_encode, ev_write, ev_bytes, .add_frame_count delta]
            if cfg.verbosity > 0 then
              (.next_pass, st, evs ++ [.stderr .progress])
            else
              (.next_pass, st, evs)

/-- The `while` loop (frontend.c, lines 756-821) over the passes the world
provides; at the end of the passes `sf_read_short` returns 0.  The result is
`none` when the loop is left towards line 823, and the ending when a pass stops
the program. -/
def encode_loop (cfg : settings) (audioReadSize : Nat) :
    driver_state → List pass → Option ending × driver_state × List event
  | st, [] => (none, st, [event.sf_read_short audioReadSize 0])
  | st, p :: rest =>
    match loop_pass cfg audioReadSize st p with
    | (.next_pass, st, evs) =>
      let r := encode_loop cfg audioReadSize st rest
      (r.1, r.2.1, evs ++ r.2.2)
    | (.leave_loop, st, evs) => (none, st, evs)
    | (.stop e, st, evs) => (some e, st, evs)

/-- The check of `sf_error` after the loop (frontend.c, lines 823-826): a line
on `stderr` and nothing else. -/
def read_error_report (w : world) : List event :=
  if w.sf_error ≠ 0 then [.stderr .read_error] else []

/-- The flush and the end of `main` (frontend.c, lines 833-863). -/
def flush_and_finish (cfg : settings) (w : world) (st : driver_state) :
    ending × driver_state × List event :=
  let mp2fill_size := w.flush
  let ev_flush := event.twolame_encode_flush mp2fill_size
  let finished : List event := if cfg.verbosity > 1 then [.stderr .finished] else []
  if mp2fill_size > 0 then
    let st := { st with frame_count := (st.frame_count + 1) % 2 ^ 32 }
    let bytes_out : Int := w.flush_fwrite
    let ev_write := event.fwrite mp2fill_size w.flush_fwrite
    if bytes_out ≤ 0 then
      (.exited ERR_WRITING_OUTPUT, st,
        [ev_flush, .add_frame_count 1, ev_write, .stderr .write_error])
    else
      let st := { st with total_bytes := (st.total_bytes + bytes_out.toNat) % 2 ^ 32 }
      (.returned ERR_NO_ERROR, st,
        [ev_flush, .add_frame_count 1, ev_write, .add_total_bytes bytes_out.toNat] ++ finished)
  else
    (.returned ERR_NO_ERROR, st, [ev_flush] ++ finished)

/-- The result of a run of `main`: how it ended, the trace, and the final
values of the variables. -/
structure run where
  ending : ending
  trace : List event
  state : driver_state
  deriving DecidableEq, Repr

/-- The state in which the loop starts: `pcmaudio` as `calloc` returns it, the
counters 0 (frontend.c, lines 690-702). -/
def initial_state : driver_state :=
  { pcmaudio := List.replicate AUDIO_BUF_SIZE 0, frame_count := 0, total_bytes := 0 }

/-- The read size chosen before the loop (frontend.c, lines 746-748). -/
def audioReadSize (cfg : settings) : Nat :=
  if cfg.single_frame_mode then cfg.TWOLAME_SAMPLES_PER_FRAME else AUDIO_BUF_SIZE

/-- The function `main` from line 746 on: choice of the read size, the loop, the `sf_error`
check, the flush. -/
def main (cfg : settings) (w : world) : run :=
  match encode_loop cfg (audioReadSize cfg) initial_state w.passes with
  | (some e, st, evs) => { ending := e, trace := evs, state := st }
  | (none, st, evs) =>
    let r := flush_and_finish cfg w st
    { ending := r.1, trace := evs ++ read_error_report w ++ r.2.2, state := r.2.1 }

/-- Settings of an ordinary stereo run: no single-frame mode, no corrections,
quiet, frames of 417 bytes. -/
def stereo_settings : settings :=
  { single_frame_mode := false, byteswap := false, channelswap := false, channels := 2,
    frame_len := 417, verbosity := 0, TWOLAME_SAMPLES_PER_FRAME := 1152 }

/-- The settings of `stereo_settings` with single-frame mode switched on. -/
def single_frame_settings : settings :=
  { stereo_settings with single_frame_mode := true }

/-- Settings of a stereo run with both corrections of the raw input switched
on. -/
def swapping_settings : settings :=
  { stereo_settings with byteswap := true, channelswap := true }

/-- A world whose input collaborator reports an error after the loop: two
chunks are encoded and written, the flush yields one more frame. -/
def read_error_world : world :=
  { passes := [⟨[1, 2, 3, 4], 417, 417⟩, ⟨[5, 6], 0, 0⟩]
    sf_error := 3, flush := 417, flush_fwrite := 417 }

/-! ### Lemmas on the bit writer -/

theorem buffer_putbits_eq_append (bs : bit_stream) (val N : Nat) :
    buffer_putbits bs val N = bs ++ buffer_putbits [] val N := by
  induction N generalizing bs with
  | zero => simp [buffer_putbits]
  | succ j ih =>
    rw [buffer_putbits, ih, buffer_putbits, ih ([] ++ _)]
    simp

theorem buffer_putbits_nil_length (val N : Nat) :
    (buffer_putbits [] val N).length = N := by
  induction N with
  | zero => simp [buffer_putbits]
  | succ j ih =>
    rw [buffer_putbits, buffer_putbits_eq_append]
    simp [ih]

theorem buffer_putbits_length (bs : bit_stream) (val N : Nat) :
    (buffer_putbits bs val N).length = bs.length + N := by
  rw [buffer_putbits_eq_append, List.length_append, buffer_putbits_nil_length]

theorem buffer_put1bit_length (bs : bit_stream) (bit : Nat) :
    (buffer_put1bit bs bit).length = bs.length + 1 := by
  simp [buffer_put1bit]

theorem buffer_put1bit_eq_putbits (bs : bit_stream) (bit : Nat) :
    buffer_put1bit bs bit = bs ++ buffer_putbits [] bit 1 := by
  simp [buffer_put1bit, buffer_putbits]

theorem msb_first_succ (val N : Nat) :
    msb_first val (N + 1) = val.testBit N :: msb_first val N := by
  unfold msb_first
  rw [List.range_succ_eq_map, List.map_cons, List.map_map]
  simp only [Nat.add_sub_cancel, Nat.sub_zero, List.cons.injEq, true_and]
  apply List.map_congr_left
  intro i _
  simp only [Function.comp_apply]
  congr 1
  omega

theorem buffer_putbits_nil_eq_msb_first (val N : Nat) :
    buffer_putbits [] val N = msb_first val N := by
  induction N with
  | zero => simp [buffer_putbits, msb_first]
  | succ j ih =>
    rw [buffer_putbits, buffer_putbits_eq_append, ih, msb_first_succ,
      Nat.testBit_to_div_mod]
    simp

theorem buffer_putbits_eq_msb_first (bs : bit_stream) (val N : Nat) :
    buffer_putbits bs val N = bs ++ msb_first val N := by
  rw [buffer_putbits_eq_append, buffer_putbits_nil_eq_msb_first]

theorem buffer_put1bit_eq_msb_first (bs : bit_stream) (bit : Nat) :
    buffer_put1bit bs bit = bs ++ msb_first bit 1 := by
  rw [buffer_put1bit_eq_putbits, buffer_putbits_nil_eq_msb_first]

/-- The code writes the layout: the sequence of writer calls of
`write_dvb_bits` appends the fields of `dvb_layout` in order. -/
theorem write_dvb_bits_eq_append_layout (glopts : twolame_options) (bs : bit_stream) :
    write_dvb_bits glopts bs = bs ++ dvb_layout glopts := by
  simp only [write_dvb_bits, dvb_layout, dvb_conditional_fields]
  split_ifs <;>
    simp only [buffer_putbits_eq_msb_first, buffer_put1bit_eq_msb_first,
      List.append_assoc, List.append_nil, List.nil_append]

/-! ### Lemmas on the bit reader -/

theorem get_bits_msb_first (acc val N : Nat) (rest : List Bool) :
    get_bits acc N (msb_first val N ++ rest) = some (acc * 2 ^ N + val % 2 ^ N, rest) := by
  induction N generalizing acc with
  | zero => simp [get_bits, msb_first, Nat.mod_one]
  | succ n ih =>
    rw [msb_first_succ, List.cons_append, get_bits, ih]
    congr 2
    rw [Nat.mod_pow_succ, Nat.testBit_to_div_mod]
    have h2 : val / 2 ^ n % 2 < 2 := Nat.mod_lt _ (by decide)
    rcases Nat.lt_succ_iff_lt_or_eq.mp h2 with h | h
    · have h0 : val / 2 ^ n % 2 = 0 := by omega
      simp [h0]; ring
    · simp [h]; ring

theorem get_fields_cons_msb_first (w : Nat) (ws : List Nat) (val : Nat) (rest : List Bool) :
    get_fields (w :: ws) (msb_first val w ++ rest)
      = match get_fields ws rest with
        | none => none
        | some (vs, rest) => some (val % 2 ^ w :: vs, rest) := by
  rw [get_fields, get_bits_msb_first]
  simp

theorem get_fields_nil (bits : List Bool) : get_fields [] bits = some ([], bits) := by
  rw [get_fields]

/-- Reading back the layout of an in-range configuration, followed by any
further bits, yields the configuration's field values and leaves those bits. -/
theorem read_dvb_bits_layout (glopts : twolame_options) (rest : List Bool)
    (h : in_range glopts) :
    read_dvb_bits (dvb_layout glopts ++ rest) = some (expected_decoding glopts, rest) := by
  obtain ⟨version, ⟨drc_code, drc_on, dolby_sur_mode, advanced_drc_enabled, advanced_drc_pt0,
    advanced_drc_pt1, advanced_drc_pt2, dialnorm_enabled, dialnorm, reprod_enabled,
    reprod_level, acm_enabled, acm, acm_compr⟩⟩ := glopts
  obtain ⟨hv, h1, h2, h3, h4, h5, h6, h7, h8, h9, h10, h11, h12, h13, h14⟩ := h
  simp only at hv h1 h2 h3 h4 h5 h6 h7 h8 h9 h10 h11 h12 h13 h14
  have e1 : drc_code % 2 ^ 8 = drc_code := Nat.mod_eq_of_lt (by omega)
  have e2 : drc_on % 2 ^ 1 = drc_on := Nat.mod_eq_of_lt (by omega)
  have e3 : (version + 1) % 2 ^ 2 = version + 1 := Nat.mod_eq_of_lt (by omega)
  have e4 : dolby_sur_mode % 2 ^ 2 = dolby_sur_mode := Nat.mod_eq_of_lt (by omega)
  have e5 : advanced_drc_pt0 % 2 ^ 8 = advanced_drc_pt0 := Nat.mod_eq_of_lt (by omega)
  have e6 : advanced_drc_pt1 % 2 ^ 8 = advanced_drc_pt1 := Nat.mod_eq_of_lt (by omega)
  have e7 : advanced_drc_pt2 % 2 ^ 8 = advanced_drc_pt2 := Nat.mod_eq_of_lt (by omega)
  have e8 : dialnorm % 2 ^ 8 = dialnorm := Nat.mod_eq_of_lt (by omega)
  have e9 : reprod_level % 2 ^ 8 = reprod_level := Nat.mod_eq_of_lt (by omega)
  have e10 : acm % 2 ^ 8 = acm := Nat.mod_eq_of_lt (by omega)
  have e11 : acm_compr % 2 ^ 8 = acm_compr := Nat.mod_eq_of_lt (by omega)
  have f1 : advanced_drc_enabled = 0 ∨ advanced_drc_enabled = 1 := by omega
  have f2 : dialnorm_enabled = 0 ∨ dialnorm_enabled = 1 := by omega
  have f3 : reprod_enabled = 0 ∨ reprod_enabled = 1 := by omega
  have f4 : acm_enabled = 0 ∨ acm_enabled = 1 := by omega
  rcases f1 with rfl | rfl <;> rcases f2 with rfl | rfl <;> rcases f3 with rfl | rfl <;>
    rcases f4 with rfl | rfl <;>
    simp [read_dvb_bits, read_header, read_group, dvb_layout, dvb_conditional_fields,
      expected_decoding, get_fields_cons_msb_first, get_fields_nil, e1, e2, e3, e4, e5, e6, e7,
      e8, e9, e10, e11] <;>
    omega

theorem msb_first_length (val N : Nat) : (msb_first val N).length = N := by
  simp [msb_first]

theorem byte_at_append_left (bs rest : List Bool) (k : Nat) :
    byte_at (bs ++ rest) (bs.length + k) = byte_at rest k := by
  rw [byte_at, List.drop_append, byte_at]

theorem byte_at_skip_field (val N k : Nat) (rest : List Bool) :
    byte_at (msb_first val N ++ rest) (N + k) = byte_at rest k := by
  have h := byte_at_append_left (msb_first val N) rest k
  rwa [msb_first_length] at h

theorem byte_at_field (val : Nat) (rest : List Bool) :
    byte_at (msb_first val 8 ++ rest) 0 = some (val % 2 ^ 8) := by
  rw [byte_at, List.drop_zero, get_bits_msb_first]
  simp

/-! ### Lemmas on one pass of the loop -/

/-- The nine ways through one pass of the loop, each with how the pass ends and
the events it leaves. -/
theorem loop_pass_cases (cfg : settings) (a : Nat) (st : driver_state) (p : pass) :
    (((loop_pass cfg a st p).1 = .leave_loop
        ∧ (loop_pass cfg a st p).2.2 = [.sf_read_short a (p.read.take a).length])
      ∨ ((loop_pass cfg a st p).1 = .stop .division_by_zero
        ∧ (loop_pass cfg a st p).2.2 = [.sf_read_short a (p.read.take a).length]))
    ∨ (((loop_pass cfg a st p).1 = .leave_loop
        ∧ (loop_pass cfg a st p).2.2
            = [.sf_read_short a (p.read.take a).length,
               .twolame_encode_buffer_interleaved ((p.read.take a).length / cfg.channels) p.encode]
        ∧ p.encode = 0)
      ∨ ((loop_pass cfg a st p).1 = .stop (.exited ERR_ENCODING)
        ∧ (loop_pass cfg a st p).2.2
            = [.sf_read_short a (p.read.take a).length,
               .twolame_encode_buffer_interleaved ((p.read.take a).length / cfg.channels) p.encode,
               .stderr .encode_error]
        ∧ p.encode < 0))
    ∨ (0 < p.encode
        ∧ ∃ tail, (loop_pass cfg a st p).2.2
            = .sf_read_short a (p.read.take a).length
              :: .twolame_encode_buffer_interleaved ((p.read.take a).length / cfg.channels) p.encode
              :: .fwrite p.encode p.fwrite :: tail
          ∧ (((loop_pass cfg a st p).1 = .stop (.exited ERR_WRITING_OUTPUT)
              ∧ tail = [.stderr .write_error] ∧ (p.fwrite : Int) ≠ p.encode)
            ∨ ((loop_pass cfg a st p).1 = .leave_loop
              ∧ tail = [.add_total_bytes (p.fwrite : Int).toNat]
              ∧ cfg.single_frame_mode = true)
            ∨ ((loop_pass cfg a st p).1 = .stop .division_by_zero
              ∧ tail = [.add_total_bytes (p.fwrite : Int).toNat]
              ∧ cfg.single_frame_mode = false)
            ∨ ((loop_pass cfg a st p).1 = .next_pass
              ∧ (tail = [.add_total_bytes (p.fwrite : Int).toNat,
                         .add_frame_count (p.encode.toNat / cfg.frame_len)]
                ∨ tail = [.add_total_bytes (p.fwrite : Int).toNat,
                          .add_frame_count (p.encode.toNat / cfg.frame_len),
                          .stderr .progress])
              ∧ cfg.single_frame_mode = false))) := by
  unfold loop_pass
  simp only
  by_cases h0 : (List.take a p.read).length = 0
  · rw [if_pos h0]; exact Or.inl (Or.inl ⟨rfl, rfl⟩)
  rw [if_neg h0]
  by_cases h1 : cfg.channels = 0
  · rw [if_pos h1]; exact Or.inl (Or.inr ⟨rfl, rfl⟩)
  rw [if_neg h1]
  by_cases h2 : p.encode = 0
  · rw [if_pos h2]; exact Or.inr (Or.inl (Or.inl ⟨rfl, rfl, h2⟩))
  rw [if_neg h2]
  by_cases h3 : p.encode < 0
  · rw [if_pos h3]; exact Or.inr (Or.inl (Or.inr ⟨rfl, rfl, h3⟩))
  rw [if_neg h3]
  refine Or.inr (Or.inr ⟨by omega, ?_⟩)
  by_cases h4 : (p.fwrite : Int) ≠ p.encode
  · rw [if_pos h4]; exact ⟨_, rfl, Or.inl ⟨rfl, rfl, h4⟩⟩
  rw [if_neg h4]
  by_cases h5 : cfg.single_frame_mode = true
  · rw [if_pos h5]; exact ⟨_, rfl, Or.inr (Or.inl ⟨rfl, rfl, h5⟩)⟩
  rw [if_neg h5]
  have h5' : cfg.single_frame_mode = false := by simpa using h5
  by_cases h6 : cfg.frame_len = 0
  · rw [if_pos h6]; exact ⟨_, rfl, Or.inr (Or.inr (Or.inl ⟨rfl, rfl, h5'⟩))⟩
  rw [if_neg h6]
  by_cases h7 : cfg.verbosity > 0
  · rw [if_pos h7]; exact ⟨_, rfl, Or.inr (Or.inr (Or.inr ⟨rfl, Or.inr rfl, h5'⟩))⟩
  · rw [if_neg h7]; exact ⟨_, rfl, Or.inr (Or.inr (Or.inr ⟨rfl, Or.inl rfl, h5'⟩))⟩

/-- The encode call of a pass, if the pass makes one, is its second event and
carries the world's answer. -/
theorem loop_pass_encode_index (cfg : settings) (a : Nat) (st : driver_state) (p : pass)
    (i n : Nat) (r : Int)
    (h : (loop_pass cfg a st p).2.2[i]? = some (.twolame_encode_buffer_interleaved n r)) :
    i = 1 ∧ r = p.encode := by
  rcases loop_pass_cases cfg a st p with
    (⟨-, hev⟩ | ⟨-, hev⟩) | (⟨-, hev, -⟩ | ⟨-, hev, -⟩) | ⟨-, tail, hev, ht⟩
  · rw [hev] at h; rcases i with _ | i <;> simp at h
  · rw [hev] at h; rcases i with _ | i <;> simp at h
  · rw [hev] at h; rcases i with _ | _ | i <;> simp at h; exact ⟨rfl, h.2.symm⟩
  · rw [hev] at h; rcases i with _ | _ | _ | i <;> simp at h; exact ⟨rfl, h.2.symm⟩
  · rw [hev] at h
    rcases i with _ | _ | _ | i
    · simp at h
    · simp at h; exact ⟨rfl, h.2.symm⟩
    · simp at h
    · exfalso
      rcases ht with ⟨-, rfl, -⟩ | ⟨-, rfl, -⟩ | ⟨-, rfl, -⟩ | ⟨-, rfl | rfl, -⟩ <;>
        rcases i with _ | _ | _ | i <;> simp at h

/-- A pass whose encode call returns zero or less: zero leaves the loop with
nothing more done, a negative value stops the program with `ERR_ENCODING` after
one line on `stderr`. -/
theorem loop_pass_encode_nonpos (cfg : settings) (a : Nat) (st : driver_state) (p : pass)
    (i n : Nat) (r : Int)
    (h : (loop_pass cfg a st p).2.2[i]? = some (.twolame_encode_buffer_interleaved n r))
    (hr : r ≤ 0) :
    (loop_pass cfg a st p).1
        = (if r = 0 then .leave_loop else .stop (.exited ERR_ENCODING))
      ∧ (loop_pass cfg a st p).2.2.drop (i + 1)
        = (if r = 0 then [] else [.stderr .encode_error]) := by
  obtain ⟨rfl, rfl⟩ := loop_pass_encode_index cfg a st p i n r h
  rcases loop_pass_cases cfg a st p with
    (⟨-, hev⟩ | ⟨-, hev⟩) | (⟨he, hev, hz⟩ | ⟨he, hev, hn⟩) | ⟨hpos, -⟩
  · rw [hev] at h; simp at h
  · rw [hev] at h; simp at h
  · rw [he, hev, if_pos hz, if_pos hz]; simp
  · have hz : ¬ p.encode = 0 := by omega
    rw [he, hev, if_neg hz, if_neg hz]; simp
  · omega

/-- In single-frame mode no pass sends the loop round again. -/
theorem loop_pass_single_frame (cfg : settings) (a : Nat) (st : driver_state) (p : pass)
    (hs : cfg.single_frame_mode = true) :
    (loop_pass cfg a st p).1 ≠ .next_pass := by
  rcases loop_pass_cases cfg a st p with
    (⟨he, -⟩ | ⟨he, -⟩) | (⟨he, -, -⟩ | ⟨he, -, -⟩) | ⟨-, tail, -, ht⟩
  · rw [he]; simp
  · rw [he]; simp
  · rw [he]; simp
  · rw [he]; simp
  · rcases ht with ⟨he, -, -⟩ | ⟨he, -, -⟩ | ⟨he, -, -⟩ | ⟨-, -, hf⟩
    · rw [he]; simp
    · rw [he]; simp
    · rw [he]; simp
    · rw [hs] at hf; cases hf

/-- Every read of a pass asks for `audioReadSize` samples. -/
theorem loop_pass_read_size (cfg : settings) (a : Nat) (st : driver_state) (p : pass)
    (items ret : Nat) (h : event.sf_read_short items ret ∈ (loop_pass cfg a st p).2.2) :
    items = a ∧ ret ≤ a := by
  have hle : (p.read.take a).length ≤ a := by simp
  rcases loop_pass_cases cfg a st p with
    (⟨-, hev⟩ | ⟨-, hev⟩) | (⟨-, hev, -⟩ | ⟨-, hev, -⟩) | ⟨-, tail, hev, ht⟩
  · rw [hev] at h; simp at h; omega
  · rw [hev] at h; simp at h; omega
  · rw [hev] at h; simp at h; omega
  · rw [hev] at h; simp at h; omega
  · rw [hev] at h
    rcases ht with ⟨-, rfl, -⟩ | ⟨-, rfl, -⟩ | ⟨-, rfl, -⟩ | ⟨-, rfl | rfl, -⟩ <;>
      simp at h <;> omega

/-! ### Lemmas on the loop -/

theorem encode_loop_nil (cfg : settings) (a : Nat) (st : driver_state) :
    encode_loop cfg a st [] = (none, st, [.sf_read_short a 0]) := by
  rw [encode_loop]

theorem encode_loop_cons_next (cfg : settings) (a : Nat) (st : driver_state) (p : pass)
    (rest : List pass) (h : (loop_pass cfg a st p).1 = .next_pass) :
    encode_loop cfg a st (p :: rest)
      = ((encode_loop cfg a (loop_pass cfg a st p).2.1 rest).1,
         (encode_loop cfg a (loop_pass cfg a st p).2.1 rest).2.1,
         (loop_pass cfg a st p).2.2 ++ (encode_loop cfg a (loop_pass cfg a st p).2.1 rest).2.2) := by
  rw [encode_loop]
  rcases hp : loop_pass cfg a st p with ⟨e, st1, evs⟩
  rw [hp] at h
  simp only at h
  subst h
  rfl

theorem encode_loop_cons_leave (cfg : settings) (a : Nat) (st : driver_state) (p : pass)
    (rest : List pass) (h : (loop_pass cfg a st p).1 = .leave_loop) :
    encode_loop cfg a st (p :: rest)
      = (none, (loop_pass cfg a st p).2.1, (loop_pass cfg a st p).2.2) := by
  rw [encode_loop]
  rcases hp : loop_pass cfg a st p with ⟨e, st1, evs⟩
  rw [hp] at h
  simp only at h
  subst h
  rfl

theorem encode_loop_cons_stop (cfg : settings) (a : Nat) (st : driver_state) (p : pass)
    (rest : List pass) (e : ending) (h : (loop_pass cfg a st p).1 = .stop e) :
    encode_loop cfg a st (p :: rest)
      = (some e, (loop_pass cfg a st p).2.1, (loop_pass cfg a st p).2.2) := by
  rw [encode_loop]
  rcases hp : loop_pass cfg a st p with ⟨e1, st1, evs⟩
  rw [hp] at h
  simp only at h
  subst h
  rfl

/-- In the loop, an encode call that returns zero is the last event and the
loop is left; one that returns a negative value is followed by the error line
only and the program exits with `ERR_ENCODING`. -/
theorem encode_loop_encode_nonpos (cfg : settings) (a : Nat) (passes : List pass) :
    ∀ (st : driver_state) (i n : Nat) (r : Int),
      (encode_loop cfg a st passes).2.2[i]? = some (.twolame_encode_buffer_interleaved n r) →
      r ≤ 0 →
      (encode_loop cfg a st passes).1
          = (if r = 0 then none else some (.exited ERR_ENCODING))
        ∧ (encode_loop cfg a st passes).2.2.drop (i + 1)
          = (if r = 0 then [] else [.stderr .encode_error]) := by
  induction passes with
  | nil =>
    intro st i n r h hr
    rw [encode_loop_nil] at h
    rcases i with _ | i <;> simp at h
  | cons p rest ih =>
    intro st i n r h hr
    rcases he : (loop_pass cfg a st p).1 with _ | _ | e
    · rw [encode_loop_cons_next cfg a st p rest he] at h ⊢
      simp only at h ⊢
      by_cases hi : i < (loop_pass cfg a st p).2.2.length
      · rw [List.getElem?_append_left hi] at h
        have := (loop_pass_encode_nonpos cfg a st p i n r h hr).1
        rw [he] at this
        split_ifs at this
      · have hle : (loop_pass cfg a st p).2.2.length ≤ i := Nat.le_of_not_lt hi
        rw [List.getElem?_append_right hle] at h
        obtain ⟨h1, h2⟩ := ih _ _ n r h hr
        refine ⟨h1, ?_⟩
        rw [List.drop_append_eq_append_drop, List.drop_eq_nil_of_le (by omega), List.nil_append]
        have : i + 1 - (loop_pass cfg a st p).2.2.length
            = i - (loop_pass cfg a st p).2.2.length + 1 := by omega
        rw [this]
        exact h2
    · rw [encode_loop_cons_leave cfg a st p rest he] at h ⊢
      simp only at h ⊢
      obtain ⟨h1, h2⟩ := loop_pass_encode_nonpos cfg a st p i n r h hr
      rw [he] at h1
      refine ⟨?_, h2⟩
      split_ifs at h1 ⊢
      rfl
    · rw [encode_loop_cons_stop cfg a st p rest e he] at h ⊢
      simp only at h ⊢
      obtain ⟨h1, h2⟩ := loop_pass_encode_nonpos cfg a st p i n r h hr
      rw [he] at h1
      refine ⟨?_, h2⟩
      split_ifs at h1 ⊢
      simp only [pass_end.stop.injEq] at h1
      rw [h1]

/-- Every read of the loop asks for `audioReadSize` samples. -/
theorem encode_loop_read_size (cfg : settings) (a : Nat) (passes : List pass) :
    ∀ (st : driver_state) (items ret : Nat),
      event.sf_read_short items ret ∈ (encode_loop cfg a st passes).2.2 →
      items = a ∧ ret ≤ a := by
  induction passes with
  | nil =>
    intro st items ret h
    rw [encode_loop_nil] at h
    simp at h
    omega
  | cons p rest ih =>
    intro st items ret h
    rcases he : (loop_pass cfg a st p).1 with _ | _ | e
    · rw [encode_loop_cons_next cfg a st p rest he] at h
      simp only [List.mem_append] at h
      rcases h with h | h
      · exact loop_pass_read_size cfg a st p items ret h
      · exact ih _ items ret h
    · rw [encode_loop_cons_leave cfg a st p rest he] at h
      exact loop_pass_read_size cfg a st p items ret h
    · rw [encode_loop_cons_stop cfg a st p rest e he] at h
      exact loop_pass_read_size cfg a st p items ret h

/-! ### Lemmas on the end of `main` -/

theorem read_error_report_no_call (w : world) :
    ∀ e ∈ read_error_report w, e.is_read = false ∧ e.is_encode = false := by
  intro e he
  unfold read_error_report at he
  split_ifs at he <;> simp at he
  subst he
  exact ⟨rfl, rfl⟩

/-- The end of `main` starts with the flush request and makes no read and no
encode call. -/
theorem flush_and_finish_events (cfg : settings) (w : world) (st : driver_state) :
    ∃ tail, (flush_and_finish cfg w st).2.2 = .twolame_encode_flush w.flush :: tail
      ∧ ∀ e ∈ tail, e.is_read = false ∧ e.is_encode = false := by
  unfold flush_and_finish
  simp only
  split_ifs <;> refine ⟨_, rfl, ?_⟩ <;> intro e he <;> simp at he <;>
    rcases he with rfl | rfl | rfl | rfl <;> exact ⟨rfl, rfl⟩

theorem after_loop_no_call (cfg : settings) (w : world) (st : driver_state) :
    ∀ e ∈ read_error_report w ++ (flush_and_finish cfg w st).2.2,
      e.is_read = false ∧ e.is_encode = false := by
  intro e he
  obtain ⟨tail, ht, hno⟩ := flush_and_finish_events cfg w st
  rw [ht] at he
  simp only [List.mem_append, List.mem_cons] at he
  rcases he with he | rfl | he
  · exact read_error_report_no_call w e he
  · exact ⟨rfl, rfl⟩
  · exact hno e he

/-- Without a positive flush result, or with a flush write that accepts
something, `main` returns `ERR_NO_ERROR` once past the loop. -/
theorem flush_and_finish_ending (cfg : settings) (w : world) (st : driver_state)
    (h : w.flush ≤ 0 ∨ 0 < w.flush_fwrite) :
    (flush_and_finish cfg w st).1 = .returned ERR_NO_ERROR := by
  unfold flush_and_finish
  simp only
  split_ifs with h1 h2 <;> first | rfl | (exfalso; omega)

theorem main_of_stop (cfg : settings) (w : world) (e : ending)
    (h : (encode_loop cfg (audioReadSize cfg) initial_state w.passes).1 = some e) :
    main cfg w
      = { ending := e
          trace := (encode_loop cfg (audioReadSize cfg) initial_state w.passes).2.2
          state := (encode_loop cfg (audioReadSize cfg) initial_state w.passes).2.1 } := by
  unfold main
  rcases hl : encode_loop cfg (audioReadSize cfg) initial_state w.passes with ⟨e1, st1, evs⟩
  rw [hl] at h
  simp only at h
  subst h
  rfl

theorem main_of_left (cfg : settings) (w : world)
    (h : (encode_loop cfg (audioReadSize cfg) initial_state w.passes).1 = none) :
    main cfg w
      = { ending :=
            (flush_and_finish cfg w
              (encode_loop cfg (audioReadSize cfg) initial_state w.passes).2.1).1
          trace :=
            (encode_loop cfg (audioReadSize cfg) initial_state w.passes).2.2
              ++ read_error_report w
              ++ (flush_and_finish cfg w
                  (encode_loop cfg (audioReadSize cfg) initial_state w.passes).2.1).2.2
          state :=
            (flush_and_finish cfg w
              (encode_loop cfg (audioReadSize cfg) initial_state w.passes).2.1).2.1 } := by
  unfold main
  rcases hl : encode_loop cfg (audioReadSize cfg) initial_state w.passes with ⟨e1, st1, evs⟩
  rw [hl] at h
  simp only at h
  subst h
  rfl

/-- An encode event of the trace of `main` lies in the part written by the
loop. -/
theorem main_encode_in_loop (cfg : settings) (w : world) (i n : Nat) (r : Int)
    (h : (main cfg w).trace[i]? = some (.twolame_encode_buffer_interleaved n r)) :
    (encode_loop cfg (audioReadSize cfg) initial_state w.passes).2.2[i]?
      = some (.twolame_encode_buffer_interleaved n r) := by
  rcases hl : (encode_loop cfg (audioReadSize cfg) initial_state w.passes).1 with _ | e
  · rw [main_of_left cfg w hl] at h
    simp only [List.append_assoc] at h
    by_cases hi : i < (encode_loop cfg (audioReadSize cfg) initial_state w.passes).2.2.length
    · rwa [List.getElem?_append_left hi] at h
    · exfalso
      rw [List.getElem?_append_right (Nat.le_of_not_lt hi)] at h
      have hm := List.getElem?_mem h
      have := (after_loop_no_call cfg w _ _ hm).2
      simp [event.is_encode] at this
  · rw [main_of_stop cfg w e hl] at h
    exact h

theorem flush_and_finish_not_encoding_error (cfg : settings) (w : world) (st : driver_state) :
    (flush_and_finish cfg w st).1 ≠ .exited ERR_ENCODING := by
  unfold flush_and_finish
  simp only
  split_ifs <;> simp [ERR_WRITING_OUTPUT, ERR_ENCODING]

/-- A read event of the trace of `main` lies in the part written by the loop. -/
theorem main_read_in_loop (cfg : settings) (w : world) (items ret : Nat)
    (h : event.sf_read_short items ret ∈ (main cfg w).trace) :
    event.sf_read_short items ret
      ∈ (encode_loop cfg (audioReadSize cfg) initial_state w.passes).2.2 := by
  rcases hl : (encode_loop cfg (audioReadSize cfg) initial_state w.passes).1 with _ | e
  · rw [main_of_left cfg w hl] at h
    simp only [List.append_assoc, List.mem_append] at h
    rcases h with h | h
    · exact h
    · exfalso
      have := (after_loop_no_call cfg w _ _ (List.mem_append.mpr h)).1
      simp [event.is_read] at this
  · rw [main_of_stop cfg w e hl] at h
    exact h

/-- In single-frame mode the loop makes one pass at most. -/
theorem encode_loop_single_frame (cfg : settings) (a : Nat) (st : driver_state) (p : pass)
    (rest : List pass) (hs : cfg.single_frame_mode = true) :
    (encode_loop cfg a st (p :: rest)).2.2 = (loop_pass cfg a st p).2.2
      ∧ (((loop_pass cfg a st p).1 = .leave_loop ∧ (encode_loop cfg a st (p :: rest)).1 = none)
        ∨ ∃ e, (loop_pass cfg a st p).1 = .stop e
            ∧ (encode_loop cfg a st (p :: rest)).1 = some e) := by
  rcases he : (loop_pass cfg a st p).1 with _ | _ | e
  · exact absurd he (loop_pass_single_frame cfg a st p hs)
  · rw [encode_loop_cons_leave cfg a st p rest he]
    exact ⟨rfl, Or.inl ⟨rfl, rfl⟩⟩
  · rw [encode_loop_cons_stop cfg a st p rest e he]
    exact ⟨rfl, Or.inr ⟨e, rfl, rfl⟩⟩

/-- A pass in single-frame mode whose encode call returns a positive count that
the next event shows written in full leaves the loop after updating the byte
counter. -/
theorem loop_pass_single_frame_written (cfg : settings) (a : Nat) (st : driver_state) (p : pass)
    (hs : cfg.single_frame_mode = true) (i n : Nat) (r : Int)
    (h : (loop_pass cfg a st p).2.2[i]? = some (.twolame_encode_buffer_interleaved n r))
    (hr : 0 < r) (hw : (loop_pass cfg a st p).2.2[i + 1]? = some (.fwrite r r.toNat)) :
    (loop_pass cfg a st p).1 = .leave_loop
      ∧ (loop_pass cfg a st p).2.2.drop (i + 2) = [.add_total_bytes r.toNat] := by
  obtain ⟨rfl, rfl⟩ := loop_pass_encode_index cfg a st p i n r h
  rcases loop_pass_cases cfg a st p with
    (⟨-, hev⟩ | ⟨-, hev⟩) | (⟨-, -, hz⟩ | ⟨-, -, hn⟩) | ⟨-, tail, hev, ht⟩
  · rw [hev] at h; simp at h
  · rw [hev] at h; simp at h
  · omega
  · omega
  · rw [hev] at hw
    simp only [List.getElem?_cons_succ, List.getElem?_cons_zero, Option.some.injEq,
      event.fwrite.injEq, true_and] at hw
    have hcast : (p.fwrite : Int) = p.encode := by rw [hw]; exact Int.toNat_of_nonneg (by omega)
    rcases ht with ⟨-, -, hne⟩ | ⟨he, rfl, -⟩ | ⟨-, -, hf⟩ | ⟨-, -, hf⟩
    · exact absurd hcast hne
    · rw [he, hev, hcast]; simp
    · rw [hs] at hf; cases hf
    · rw [hs] at hf; cases hf

/-! ### The claims on `dvb.c` -/

/-- Claim C1. For every configuration (any flags, any field values) and every
stream, `write_dvb_bits` appends exactly `get_required_dvb_bits` bits. -/
theorem write_dvb_bits_length_eq_required (glopts : twolame_options) (bs : bit_stream) :
    (write_dvb_bits glopts bs).length = bs.length + get_required_dvb_bits glopts := by
  simp only [write_dvb_bits, get_required_dvb_bits]
  split_ifs <;> simp only [buffer_putbits_length, buffer_put1bit_length]

/-- Claim C3. The function `get_required_dvb_bits` is total and returns 40
plus 24, 8, 8 and 16 for the set flags among advanced DRC, dialnorm,
reproduction level and ACM; so 40 with all four clear and 96 with all four
set (to any non-zero values). -/
theorem get_required_dvb_bits_formula (glopts : twolame_options) :
    get_required_dvb_bits glopts
        = 40 + 24 * (if glopts.dvb_anc.advanced_drc_enabled ≠ 0 then 1 else 0)
             + 8 * (if glopts.dvb_anc.dialnorm_enabled ≠ 0 then 1 else 0)
             + 8 * (if glopts.dvb_anc.reprod_enabled ≠ 0 then 1 else 0)
             + 16 * (if glopts.dvb_anc.acm_enabled ≠ 0 then 1 else 0)
      ∧ get_required_dvb_bits (set_flags glopts 0 0 0 0) = 40
      ∧ ∀ a b c d : Nat,
          get_required_dvb_bits (set_flags glopts (a + 1) (b + 1) (c + 1) (d + 1)) = 96 := by
  refine ⟨?_, ?_, ?_⟩
  · simp only [get_required_dvb_bits]
    split_ifs <;> rfl
  · simp [get_required_dvb_bits, set_flags]
  · intro a b c d
    simp [get_required_dvb_bits, set_flags]

/-- Claim C4. For every configuration with in-range field values,
`write_dvb_bits` appends exactly the fields of the fixed layout, in order and
most significant bit first: drc_code (8), drc_on (1), reserved 0 (7), sync 0xBC
(8), version+1 (2), dolby_sur_mode (2), constant 3 (4), the eight status bits,
then the conditional groups, each present exactly when its flag is set. -/
theorem write_dvb_bits_exact_layout (glopts : twolame_options) (bs : bit_stream)
    (_h : in_range glopts) :
    write_dvb_bits glopts bs = bs ++ dvb_layout glopts :=
  write_dvb_bits_eq_append_layout glopts bs

/-- Claim C2. For every configuration whose values fit their field widths,
reading the bits that `write_dvb_bits` appended (whatever follows them) with the
fixed layout recovers every field: drc_code, drc_on, version+1, dolby_sur_mode,
the four flags, and each conditional value whose flag is set. -/
theorem read_dvb_bits_write_dvb_bits (glopts : twolame_options) (bs : bit_stream)
    (rest : List Bool) (h : in_range glopts) :
    read_dvb_bits ((write_dvb_bits glopts bs).drop bs.length ++ rest)
      = some (expected_decoding glopts, rest) := by
  rw [write_dvb_bits_eq_append_layout, List.drop_left]
  exact read_dvb_bits_layout glopts rest h

/-- Witness for C2 at `sample_options` (all four groups present), appended to
a stream that already holds three bits. -/
theorem read_dvb_bits_write_dvb_bits_witness :
    in_range sample_options
      ∧ read_dvb_bits
          ((write_dvb_bits sample_options [true, false, true]).drop 3 ++ [true])
          = some (expected_decoding sample_options, [true]) :=
  ⟨by decide, read_dvb_bits_write_dvb_bits sample_options [true, false, true] [true] (by decide)⟩

/-- Witness for C4 at `sample_options`. -/
theorem write_dvb_bits_exact_layout_witness :
    in_range sample_options
      ∧ write_dvb_bits sample_options [true] = [true] ++ dvb_layout sample_options :=
  ⟨by decide, write_dvb_bits_exact_layout sample_options [true] (by decide)⟩

/-- Claim C5, as amended. For every configuration, whatever its flags, and
every stream, the 8 bits that start 16 bits after the beginning of the block
written by `write_dvb_bits` are the sync marker 0xBC: the marker follows the 8
bits of drc_code, the drc_on bit and the 7 reserved bits. -/
theorem sync_marker_at_offset_16 (glopts : twolame_options) (bs : bit_stream) :
    byte_at (write_dvb_bits glopts bs) (bs.length + 16) = some 0xBC := by
  rw [write_dvb_bits_eq_append_layout, byte_at_append_left]
  unfold dvb_layout
  simp only [List.append_assoc]
  exact (byte_at_skip_field _ 8 8 _).trans
    ((byte_at_skip_field _ 1 7 _).trans
      ((byte_at_skip_field _ 7 0 _).trans (byte_at_field 0xBC _)))

/-- Claim C5, counterexample. With every optional flag clear, the 8 bits that
start at bit offset 17 of the block are 0x78, not the sync marker. -/
theorem sync_marker_not_at_offset_17 :
    byte_at (write_dvb_bits plain_options []) 17 = some 0x78
      ∧ byte_at (write_dvb_bits plain_options []) 17 ≠ some 0xBC := by
  decide

/-! ### The claims on the loop of `main` -/

/-- Claim C7. In every run, an encode call that returns a negative value is
followed by the error line on `stderr` and nothing else, and the run exits with
`ERR_ENCODING` (12): after that call there is no read, no write, no flush and no
counter update. -/
theorem main_negative_encode_aborts (cfg : settings) (w : world) (i n : Nat) (r : Int)
    (h : (main cfg w).trace[i]? = some (.twolame_encode_buffer_interleaved n r))
    (hr : r < 0) :
    (main cfg w).ending = .exited ERR_ENCODING
      ∧ ERR_ENCODING = 12
      ∧ (main cfg w).trace.drop (i + 1) = [.stderr .encode_error]
      ∧ ∀ e ∈ (main cfg w).trace.drop (i + 1),
          e.is_read = false ∧ e.is_write = false ∧ e.is_flush = false
            ∧ e.is_counter_update = false := by
  have hl := main_encode_in_loop cfg w i n r h
  obtain ⟨h1, h2⟩ := encode_loop_encode_nonpos cfg _ _ _ i n r hl (Int.le_of_lt hr)
  have hne : ¬ r = 0 := by omega
  rw [if_neg hne] at h1 h2
  rw [main_of_stop cfg w _ h1]
  refine ⟨rfl, rfl, h2, ?_⟩
  intro e he
  change e ∈ List.drop (i + 1) (encode_loop cfg (audioReadSize cfg) initial_state w.passes).2.2
    at he
  rw [h2] at he
  simp only [List.mem_singleton] at he
  subst he
  exact ⟨rfl, rfl, rfl, rfl⟩

/-- Witness for C7: the second pass of a run fails in the encoder. -/
theorem main_negative_encode_aborts_witness :
    (main stereo_settings
        { passes := [⟨[1, 2, 3, 4], 417, 417⟩, ⟨[5, 6], -1, 0⟩, ⟨[7, 8], 417, 417⟩]
          sf_error := 0, flush := 417, flush_fwrite := 417 }).trace[6]?
        = some (.twolame_encode_buffer_interleaved 1 (-1))
      ∧ (main stereo_settings
        { passes := [⟨[1, 2, 3, 4], 417, 417⟩, ⟨[5, 6], -1, 0⟩, ⟨[7, 8], 417, 417⟩]
          sf_error := 0, flush := 417, flush_fwrite := 417 }).ending = .exited ERR_ENCODING :=
  ⟨by decide,
   (main_negative_encode_aborts stereo_settings
      { passes := [⟨[1, 2, 3, 4], 417, 417⟩, ⟨[5, 6], -1, 0⟩, ⟨[7, 8], 417, 417⟩]
        sf_error := 0, flush := 417, flush_fwrite := 417 } 6 1 (-1) (by decide) (by decide)).1⟩

/-- Claim C6, as amended. In every run, an encode call that returns exactly
zero is not an error, but it ends the reading: what follows is the `sf_error`
check and the flush request, with no further read and no further encode call,
and the run returns `ERR_NO_ERROR` unless the write of the flush fails. -/
theorem main_zero_encode_leaves_loop (cfg : settings) (w : world) (i n : Nat)
    (h : (main cfg w).trace[i]? = some (.twolame_encode_buffer_interleaved n 0)) :
    (∃ tail, (main cfg w).trace.drop (i + 1)
        = read_error_report w ++ .twolame_encode_flush w.flush :: tail)
      ∧ (∀ e ∈ (main cfg w).trace.drop (i + 1), e.is_read = false ∧ e.is_encode = false)
      ∧ (main cfg w).ending ≠ .exited ERR_ENCODING
      ∧ (w.flush ≤ 0 ∨ 0 < w.flush_fwrite → (main cfg w).ending = .returned ERR_NO_ERROR) := by
  have hl := main_encode_in_loop cfg w i n 0 h
  obtain ⟨h1, h2⟩ := encode_loop_encode_nonpos cfg _ _ _ i n 0 hl (le_refl 0)
  rw [if_pos rfl] at h1 h2
  have hlen : i + 1 ≤ (encode_loop cfg (audioReadSize cfg) initial_state w.passes).2.2.length := by
    have := (List.getElem?_eq_some.mp hl).1
    omega
  have hdrop : (main cfg w).trace.drop (i + 1)
      = read_error_report w
        ++ (flush_and_finish cfg w
            (encode_loop cfg (audioReadSize cfg) initial_state w.passes).2.1).2.2 := by
    rw [main_of_left cfg w h1]
    simp only [List.append_assoc]
    rw [List.drop_append_of_le_length hlen, h2, List.nil_append]
  refine ⟨?_, ?_, ?_, ?_⟩
  · obtain ⟨tail, ht, -⟩ := flush_and_finish_events cfg w
      (encode_loop cfg (audioReadSize cfg) initial_state w.passes).2.1
    exact ⟨tail, by rw [hdrop, ht]⟩
  · rw [hdrop]
    exact after_loop_no_call cfg w _
  · rw [main_of_left cfg w h1]
    exact flush_and_finish_not_encoding_error cfg w _
  · intro hf
    rw [main_of_left cfg w h1]
    exact flush_and_finish_ending cfg w _ hf

/-- Witness for C6 as amended: one short chunk for which the encoder has no
frame yet, then more input that is never read. -/
theorem main_zero_encode_leaves_loop_witness :
    (main stereo_settings
        { passes := [⟨[1, 2], 0, 0⟩, ⟨[3, 4], 417, 417⟩]
          sf_error := 0, flush := 417, flush_fwrite := 417 }).trace[1]?
        = some (.twolame_encode_buffer_interleaved 1 0)
      ∧ (main stereo_settings
        { passes := [⟨[1, 2], 0, 0⟩, ⟨[3, 4], 417, 417⟩]
          sf_error := 0, flush := 417, flush_fwrite := 417 }).ending ≠ .exited ERR_ENCODING :=
  ⟨by decide,
   (main_zero_encode_leaves_loop stereo_settings
      { passes := [⟨[1, 2], 0, 0⟩, ⟨[3, 4], 417, 417⟩]
        sf_error := 0, flush := 417, flush_fwrite := 417 } 1 1 (by decide)).2.2.1⟩

/-- Claim C6, counterexample. The first chunk makes the encoder return zero
bytes while a second chunk is still to be read; the driver does not read it:
the event after the encode call is the flush request. -/
theorem zero_encode_stops_reading :
    (main stereo_settings
        { passes := [⟨[1, 2], 0, 0⟩, ⟨[3, 4], 417, 417⟩]
          sf_error := 0, flush := 0, flush_fwrite := 0 }).trace
      = [.sf_read_short 9210 2, .twolame_encode_buffer_interleaved 1 0,
         .twolame_encode_flush 0] := by
  decide

/-- Claim C8. The code at the failing input: a flush that produces 417 bytes of
which the sink accepts 100 lets `main` return `ERR_NO_ERROR` with 100 bytes
counted, whereas the same short write inside the loop exits with
`ERR_WRITING_OUTPUT` (14). -/
theorem flush_short_write_goes_unnoticed :
    (main stereo_settings
        { passes := [⟨[1, 2, 3, 4], 0, 0⟩]
          sf_error := 0, flush := 417, flush_fwrite := 100 }).ending = .returned ERR_NO_ERROR
      ∧ (main stereo_settings
        { passes := [⟨[1, 2, 3, 4], 0, 0⟩]
          sf_error := 0, flush := 417, flush_fwrite := 100 }).trace
          = [.sf_read_short 9210 4, .twolame_encode_buffer_interleaved 2 0,
             .twolame_encode_flush 417, .add_frame_count 1, .fwrite 417 100,
             .add_total_bytes 100]
      ∧ (main stereo_settings
        { passes := [⟨[1, 2, 3, 4], 417, 100⟩]
          sf_error := 0, flush := 0, flush_fwrite := 0 }).ending = .exited ERR_WRITING_OUTPUT
      ∧ ERR_WRITING_OUTPUT = 14 := by
  decide

/-- Claim C9, as amended. In a pass in which the encode call returns a positive
count `n` and `fwrite` returns `n`, `total_bytes` grows by `n` in both modes;
outside single-frame mode `frame_count` grows by `n / frame_len`; in
single-frame mode the pass leaves the loop with `frame_count` as it was.  The
counters are `unsigned int`, so the sums are taken modulo `2 ^ 32`, and are the
plain sums when those stay below `2 ^ 32`. -/
theorem loop_pass_counters (cfg : settings) (a : Nat) (st : driver_state) (p : pass) (n : Nat)
    (hread : (p.read.take a).length ≠ 0) (hch : cfg.channels ≠ 0)
    (hn : 0 < n) (he : p.encode = n) (hw : p.fwrite = n) :
    (loop_pass cfg a st p).2.1.total_bytes = (st.total_bytes + n) % 2 ^ 32
      ∧ (st.total_bytes + n < 2 ^ 32 →
          (loop_pass cfg a st p).2.1.total_bytes = st.total_bytes + n)
      ∧ (cfg.single_frame_mode = false → cfg.frame_len ≠ 0 →
          (loop_pass cfg a st p).2.1.frame_count
              = (st.frame_count + n / cfg.frame_len) % 2 ^ 32
            ∧ (st.frame_count + n / cfg.frame_len < 2 ^ 32 →
                (loop_pass cfg a st p).2.1.frame_count = st.frame_count + n / cfg.frame_len))
      ∧ (cfg.single_frame_mode = true →
          (loop_pass cfg a st p).1 = .leave_loop
            ∧ (loop_pass cfg a st p).2.1.frame_count = st.frame_count) := by
  have h2 : ¬ p.encode = 0 := by omega
  have h3 : ¬ p.encode < 0 := by omega
  have h4 : ¬ ((p.fwrite : Int) ≠ p.encode) := by rw [he, hw]; simp
  have hnat : (p.fwrite : Int).toNat = n := by rw [hw]; simp
  have hnat2 : p.encode.toNat = n := by rw [he]; simp
  unfold loop_pass
  simp only
  rw [if_neg hread, if_neg hch, if_neg h2, if_neg h3, if_neg h4, hnat, hnat2]
  refine ⟨?_, ?_, ?_, ?_⟩
  · split_ifs <;> rfl
  · intro hlt
    split_ifs <;> exact Nat.mod_eq_of_lt hlt
  · intro hs hf
    have hs1 : ¬ cfg.single_frame_mode = true := by simp [hs]
    rw [if_neg hs1, if_neg hf]
    refine ⟨by split_ifs <;> rfl, ?_⟩
    intro hlt
    split_ifs <;> exact Nat.mod_eq_of_lt hlt
  · intro hs
    rw [if_pos hs]
    exact ⟨rfl, rfl⟩

/-- Witness for C9 as amended: an ordinary pass that yields two frames of 417
bytes. -/
theorem loop_pass_counters_witness :
    (loop_pass stereo_settings AUDIO_BUF_SIZE ⟨[], 3, 1000⟩ ⟨[1, 2, 3, 4], 834, 834⟩).2.1.total_bytes
        = (1000 + 834) % 2 ^ 32
      ∧ (loop_pass stereo_settings AUDIO_BUF_SIZE ⟨[], 3, 1000⟩
          ⟨[1, 2, 3, 4], 834, 834⟩).2.1.frame_count = 5 :=
  ⟨(loop_pass_counters stereo_settings AUDIO_BUF_SIZE ⟨[], 3, 1000⟩ ⟨[1, 2, 3, 4], 834, 834⟩ 834
      (by decide) (by decide) (by decide) (by decide) (by decide)).1,
   by decide⟩

set_option maxRecDepth 20000 in
/-- Claim C9, counterexample. Single-frame mode on mono input: the one pass
encodes a frame of 417 bytes and writes it in full, `total_bytes` becomes 417,
and `frame_count` is still 0 at the end of the run, not `417 / 417 = 1`. -/
theorem single_frame_mode_skips_frame_count :
    (main { single_frame_settings with channels := 1 }
        { passes := [⟨List.replicate 1152 7, 417, 417⟩, ⟨List.replicate 1152 7, 417, 417⟩]
          sf_error := 0, flush := 0, flush_fwrite := 0 }).trace
        = [.sf_read_short 1152 1152, .twolame_encode_buffer_interleaved 1152 417,
           .fwrite 417 417, .add_total_bytes 417, .twolame_encode_flush 0]
      ∧ (main { single_frame_settings with channels := 1 }
        { passes := [⟨List.replicate 1152 7, 417, 417⟩, ⟨List.replicate 1152 7, 417, 417⟩]
          sf_error := 0, flush := 0, flush_fwrite := 0 }).state.total_bytes = 417
      ∧ (main { single_frame_settings with channels := 1 }
        { passes := [⟨List.replicate 1152 7, 417, 417⟩, ⟨List.replicate 1152 7, 417, 417⟩]
          sf_error := 0, flush := 0, flush_fwrite := 0 }).state.frame_count = 0 := by
  decide

/-- Claim C10. In single-frame mode every read asks for
`TWOLAME_SAMPLES_PER_FRAME` samples (and gets no more), and after the first
encode call that returns a positive count which is then written in full there is
no further read and no further encode call, whatever input remains: only the
byte counter update, the `sf_error` check and the flush follow. -/
theorem main_single_frame_mode (cfg : settings) (w : world)
    (hs : cfg.single_frame_mode = true) :
    (∀ items ret, event.sf_read_short items ret ∈ (main cfg w).trace →
        items = cfg.TWOLAME_SAMPLES_PER_FRAME ∧ ret ≤ cfg.TWOLAME_SAMPLES_PER_FRAME)
      ∧ ∀ (i n : Nat) (r : Int),
          (main cfg w).trace[i]? = some (.twolame_encode_buffer_interleaved n r) →
          0 < r →
          (main cfg w).trace[i + 1]? = some (.fwrite r r.toNat) →
          (∀ e ∈ (main cfg w).trace.drop (i + 2), e.is_read = false ∧ e.is_encode = false)
            ∧ event.twolame_encode_flush w.flush ∈ (main cfg w).trace.drop (i + 2) := by
  have ha : audioReadSize cfg = cfg.TWOLAME_SAMPLES_PER_FRAME := by
    unfold audioReadSize; rw [if_pos hs]
  refine ⟨?_, ?_⟩
  · intro items ret h
    have := encode_loop_read_size cfg _ _ _ items ret (main_read_in_loop cfg w items ret h)
    rw [ha] at this
    exact this
  · intro i n r h hr hw
    have hl := main_encode_in_loop cfg w i n r h
    rcases hp : w.passes with _ | ⟨p, rest⟩
    · rw [hp, encode_loop_nil] at hl
      rcases i with _ | i <;> simp at hl
    · rw [hp] at hl
      obtain ⟨hev, hend⟩ := encode_loop_single_frame cfg (audioReadSize cfg) initial_state p rest hs
      rw [hev] at hl
      have hlen : i + 1 < (loop_pass cfg (audioReadSize cfg) initial_state p).2.2.length := by
        obtain ⟨rfl, -⟩ := loop_pass_encode_index cfg _ _ p i n r hl
        rcases loop_pass_cases cfg (audioReadSize cfg) initial_state p with
          (⟨-, hev1⟩ | ⟨-, hev1⟩) | (⟨-, -, hz⟩ | ⟨-, -, hn⟩) | ⟨-, tail, hev1, -⟩
        · rw [hev1] at hl; simp at hl
        · rw [hev1] at hl; simp at hl
        · have := (loop_pass_encode_index cfg _ _ p 1 n r hl).2; omega
        · have := (loop_pass_encode_index cfg _ _ p 1 n r hl).2; omega
        · rw [hev1]; simp
      have hw1 : (loop_pass cfg (audioReadSize cfg) initial_state p).2.2[i + 1]?
          = some (.fwrite r r.toNat) := by
        rcases hend with ⟨-, hnone⟩ | ⟨e, -, hsome⟩
        · rw [← hp] at hnone hev
          rw [main_of_left cfg w hnone, hev] at hw
          simp only [List.append_assoc] at hw
          rwa [List.getElem?_append_left hlen] at hw
        · rw [← hp] at hsome hev
          rw [main_of_stop cfg w e hsome, hev] at hw
          exact hw
      obtain ⟨hleave, hdrop⟩ :=
        loop_pass_single_frame_written cfg _ _ p hs i n r hl hr hw1
      rcases hend with ⟨-, hnone⟩ | ⟨e, hstop, -⟩
      · rw [← hp] at hnone hev
        have hd : (main cfg w).trace.drop (i + 2)
            = event.add_total_bytes r.toNat
              :: (read_error_report w
                ++ (flush_and_finish cfg w
                    (encode_loop cfg (audioReadSize cfg) initial_state w.passes).2.1).2.2) := by
          rw [main_of_left cfg w hnone, hev]
          simp only [List.append_assoc]
          rw [List.drop_append_of_le_length (by omega), hdrop]
          rfl
        rw [hd]
        refine ⟨?_, ?_⟩
        · intro e he
          rcases List.mem_cons.mp he with rfl | he
          · exact ⟨rfl, rfl⟩
          · exact after_loop_no_call cfg w _ e he
        · obtain ⟨tail, ht, -⟩ := flush_and_finish_events cfg w
            (encode_loop cfg (audioReadSize cfg) initial_state w.passes).2.1
          rw [ht]
          simp
      · rw [hleave] at hstop
        cases hstop

/-- Witness for C10: stereo input in single-frame mode, two chunks on offer;
the first is encoded and written, the second is never read. -/
theorem main_single_frame_mode_witness :
    single_frame_settings.single_frame_mode = true
      ∧ (main single_frame_settings
          { passes := [⟨[1, 2], 417, 417⟩, ⟨[3, 4], 417, 417⟩]
            sf_error := 0, flush := 0, flush_fwrite := 0 }).trace[1]?
          = some (.twolame_encode_buffer_interleaved 1 417)
      ∧ event.twolame_encode_flush 0
          ∈ (main single_frame_settings
              { passes := [⟨[1, 2], 417, 417⟩, ⟨[3, 4], 417, 417⟩]
                sf_error := 0, flush := 0, flush_fwrite := 0 }).trace.drop 3 :=
  ⟨rfl, by decide,
   ((main_single_frame_mode single_frame_settings
      { passes := [⟨[1, 2], 417, 417⟩, ⟨[3, 4], 417, 417⟩]
        sf_error := 0, flush := 0, flush_fwrite := 0 } rfl).2 1 1 417
      (by decide) (by decide) (by decide)).2⟩

/-! ### Lemmas on the two correction loops -/

theorem swap_bytes_bytes (x : Nat) (h : x < 65536) :
    swap_bytes x / 256 = x % 256 ∧ swap_bytes x % 256 = x / 256 ∧ swap_bytes x < 65536 := by
  unfold swap_bytes
  omega

theorem swap_bytes_swap_bytes (x : Nat) (h : x < 65536) : swap_bytes (swap_bytes x) = x := by
  obtain ⟨h1, h2, -⟩ := swap_bytes_bytes x h
  have h3 : swap_bytes (swap_bytes x)
      = swap_bytes x % 256 * 256 + swap_bytes x / 256 % 256 := rfl
  rw [h3, h1, h2]
  omega

theorem byteswap_loop_succ (pcmaudio : List Nat) (n : Nat) :
    byteswap_loop pcmaudio (n + 1)
      = (byteswap_loop pcmaudio n).set n (swap_bytes ((byteswap_loop pcmaudio n).getD n 0)) := by
  unfold byteswap_loop
  rw [List.range_succ, List.foldl_append]
  rfl

theorem byteswap_loop_length (pcmaudio : List Nat) (n : Nat) :
    (byteswap_loop pcmaudio n).length = pcmaudio.length := by
  induction n with
  | zero => rfl
  | succ n ih => rw [byteswap_loop_succ, List.length_set, ih]

/-- After the byte-swap loop over `n` samples, entry `i` is the byte-swapped
old entry when `i < n` and the old entry otherwise. -/
theorem byteswap_loop_getElem? (pcmaudio : List Nat) (n i : Nat) :
    (byteswap_loop pcmaudio n)[i]?
      = if i < n then pcmaudio[i]?.map swap_bytes else pcmaudio[i]? := by
  induction n with
  | zero => simp [byteswap_loop]
  | succ n ih =>
    rw [byteswap_loop_succ, List.getElem?_set]
    by_cases hni : n = i
    · subst hni
      rw [if_pos rfl, if_pos (Nat.lt_succ_self n), byteswap_loop_length]
      have ihn : (byteswap_loop pcmaudio n)[n]? = pcmaudio[n]? := by
        rw [ih, if_neg (Nat.lt_irrefl n)]
      rw [List.getD_eq_getElem?_getD, ihn]
      by_cases hlen : n < pcmaudio.length
      · rw [if_pos hlen, List.getElem?_eq_getElem hlen]
        rfl
      · rw [if_neg hlen, List.getElem?_eq_none (Nat.le_of_not_lt hlen)]
        rfl
    · rw [if_neg hni, ih]
      by_cases hlt : i < n
      · rw [if_pos hlt, if_pos (Nat.lt_succ_of_lt hlt)]
      · rw [if_neg hlt, if_neg (by omega)]

/-- Two runs of the byte-swap loop over the same `n` samples of 16 bits give
the buffer back. -/
theorem byteswap_loop_twice (pcmaudio : List Nat) (n : Nat)
    (h16 : ∀ x ∈ pcmaudio, x < 65536) :
    byteswap_loop (byteswap_loop pcmaudio n) n = pcmaudio := by
  apply List.ext_getElem?
  intro i
  rw [byteswap_loop_getElem?, byteswap_loop_getElem?]
  by_cases hlt : i < n
  · rw [if_pos hlt, if_pos hlt]
    rcases hx : pcmaudio[i]? with _ | x
    · rfl
    · have hm : x ∈ pcmaudio := List.getElem?_mem hx
      simp only [Option.map_some']
      rw [swap_bytes_swap_bytes x (h16 x hm)]
  · rw [if_neg hlt, if_neg hlt]

theorem channelswap_loop_succ (pcmaudio : List Nat) (m : Nat) :
    channelswap_loop pcmaudio (m + 1)
      = ((channelswap_loop pcmaudio m).set (2 * m)
            ((channelswap_loop pcmaudio m).getD (2 * m + 1) 0)).set (2 * m + 1)
          ((channelswap_loop pcmaudio m).getD (2 * m) 0) := by
  unfold channelswap_loop
  rw [List.range_succ, List.foldl_append]
  rfl

theorem channelswap_loop_length (pcmaudio : List Nat) (m : Nat) :
    (channelswap_loop pcmaudio m).length = pcmaudio.length := by
  induction m with
  | zero => rfl
  | succ m ih => rw [channelswap_loop_succ, List.length_set, List.length_set, ih]

/-- After the channel-swap loop over `m` sample pairs that lie inside the
buffer, entry `j` below `2 * m` is the old entry of the other channel of its
pair, and every entry from `2 * m` on is the old one. -/
theorem channelswap_loop_getElem? (pcmaudio : List Nat) (m : Nat)
    (hm : 2 * m ≤ pcmaudio.length) (j : Nat) :
    (channelswap_loop pcmaudio m)[j]?
      = if j < 2 * m then (if j % 2 = 0 then pcmaudio[j + 1]? else pcmaudio[j - 1]?)
        else pcmaudio[j]? := by
  induction m generalizing j with
  | zero => simp [channelswap_loop]
  | succ m ih =>
    have hlen := channelswap_loop_length pcmaudio m
    have h0 : (channelswap_loop pcmaudio m).getD (2 * m) 0 = pcmaudio[2 * m] := by
      rw [List.getD_eq_getElem?_getD, ih (by omega) (2 * m), if_neg (Nat.lt_irrefl _),
        List.getElem?_eq_getElem (by omega)]
      rfl
    have h1 : (channelswap_loop pcmaudio m).getD (2 * m + 1) 0 = pcmaudio[2 * m + 1] := by
      rw [List.getD_eq_getElem?_getD, ih (by omega) (2 * m + 1), if_neg (by omega),
        List.getElem?_eq_getElem (by omega)]
      rfl
    rw [channelswap_loop_succ, h0, h1]
    by_cases hj1 : 2 * m + 1 = j
    · subst hj1
      rw [List.getElem?_set_self (by rw [List.length_set, hlen]; omega),
        if_pos (by omega), if_neg (by omega), List.getElem?_eq_getElem (by omega)]
      rfl
    · rw [List.getElem?_set_ne hj1]
      by_cases hj0 : 2 * m = j
      · subst hj0
        rw [List.getElem?_set_self (by rw [hlen]; omega),
          if_pos (by omega), if_pos (by omega), List.getElem?_eq_getElem (by omega)]
      · rw [List.getElem?_set_ne hj0, ih (by omega) j]
        by_cases hlt : j < 2 * m
        · rw [if_pos hlt, if_pos (show j < 2 * (m + 1) by omega)]
        · rw [if_neg hlt, if_neg (show ¬ j < 2 * (m + 1) by omega)]

/-! ### Further lemmas on the loop and the end of `main` -/

theorem loop_pass_stop_ending (cfg : settings) (a : Nat) (st : driver_state) (p : pass)
    (e : ending) (h : (loop_pass cfg a st p).1 = .stop e) :
    e = .division_by_zero ∨ e = .exited ERR_ENCODING ∨ e = .exited ERR_WRITING_OUTPUT := by
  rcases loop_pass_cases cfg a st p with
    (⟨he, -⟩ | ⟨he, -⟩) | (⟨he, -, -⟩ | ⟨he, -, -⟩) | ⟨-, tail, -, ht⟩
  · rw [he] at h; cases h
  · rw [he] at h; cases h; exact Or.inl rfl
  · rw [he] at h; cases h
  · rw [he] at h; cases h; exact Or.inr (Or.inl rfl)
  · rcases ht with ⟨he, -, -⟩ | ⟨he, -, -⟩ | ⟨he, -, -⟩ | ⟨he, -, -⟩
    · rw [he] at h; cases h; exact Or.inr (Or.inr rfl)
    · rw [he] at h; cases h
    · rw [he] at h; cases h; exact Or.inl rfl
    · rw [he] at h; cases h

/-- The loop stops the program only through a division by zero, an encoding
failure or a write failure. -/
theorem encode_loop_stop_ending (cfg : settings) (a : Nat) (passes : List pass) :
    ∀ (st : driver_state) (e : ending), (encode_loop cfg a st passes).1 = some e →
      e = .division_by_zero ∨ e = .exited ERR_ENCODING ∨ e = .exited ERR_WRITING_OUTPUT := by
  induction passes with
  | nil =>
    intro st e h
    rw [encode_loop_nil] at h
    cases h
  | cons p rest ih =>
    intro st e h
    rcases he : (loop_pass cfg a st p).1 with _ | _ | e1
    · rw [encode_loop_cons_next cfg a st p rest he] at h
      exact ih _ e h
    · rw [encode_loop_cons_leave cfg a st p rest he] at h
      cases h
    · rw [encode_loop_cons_stop cfg a st p rest e1 he] at h
      cases h
      exact loop_pass_stop_ending cfg a st p e he

theorem loop_pass_no_flush (cfg : settings) (a : Nat) (st : driver_state) (p : pass) :
    ∀ e ∈ (loop_pass cfg a st p).2.2, e.is_flush = false := by
  intro e he
  rcases loop_pass_cases cfg a st p with
    (⟨-, hev⟩ | ⟨-, hev⟩) | (⟨-, hev, -⟩ | ⟨-, hev, -⟩) | ⟨-, tail, hev, ht⟩
  · rw [hev] at he; simp at he; subst he; rfl
  · rw [hev] at he; simp at he; subst he; rfl
  · rw [hev] at he; simp at he; rcases he with rfl | rfl <;> rfl
  · rw [hev] at he; simp at he; rcases he with rfl | rfl | rfl <;> rfl
  · rw [hev] at he
    rcases ht with ⟨-, rfl, -⟩ | ⟨-, rfl, -⟩ | ⟨-, rfl, -⟩ | ⟨-, rfl | rfl, -⟩ <;>
      simp at he <;> rcases he with rfl | rfl | rfl | rfl | rfl | rfl | rfl <;> rfl

/-- The loop never asks for the flush. -/
theorem encode_loop_no_flush (cfg : settings) (a : Nat) (passes : List pass) :
    ∀ (st : driver_state), ∀ e ∈ (encode_loop cfg a st passes).2.2, e.is_flush = false := by
  induction passes with
  | nil =>
    intro st e he
    rw [encode_loop_nil] at he
    simp at he
    subst he
    rfl
  | cons p rest ih =>
    intro st e he
    rcases hp : (loop_pass cfg a st p).1 with _ | _ | e1
    · rw [encode_loop_cons_next cfg a st p rest hp] at he
      rcases List.mem_append.mp he with h | h
      · exact loop_pass_no_flush cfg a st p e h
      · exact ih _ e h
    · rw [encode_loop_cons_leave cfg a st p rest hp] at he
      exact loop_pass_no_flush cfg a st p e he
    · rw [encode_loop_cons_stop cfg a st p rest e1 hp] at he
      exact loop_pass_no_flush cfg a st p e he

theorem read_error_report_no_flush (w : world) :
    ∀ e ∈ read_error_report w, e.is_flush = false := by
  intro e he
  unfold read_error_report at he
  split_ifs at he <;> simp at he
  subst he
  rfl

/-- The end of `main` asks for the flush once, first of all; after a
non-positive flush result it writes nothing and updates no counter. -/
theorem flush_and_finish_tail (cfg : settings) (w : world) (st : driver_state) :
    ∃ tail, (flush_and_finish cfg w st).2.2 = .twolame_encode_flush w.flush :: tail
      ∧ (∀ e ∈ tail, e.is_flush = false)
      ∧ (w.flush ≤ 0 → ∀ e ∈ tail, e.is_write = false ∧ e.is_counter_update = false) := by
  unfold flush_and_finish
  simp only
  split_ifs
  all_goals refine ⟨_, rfl, ?_, ?_⟩
  all_goals first
    | (intro hle; exfalso; omega)
    | (intro e he; simp at he; rcases he with rfl | rfl | rfl | rfl <;> rfl)
    | (intro e he; simp at he)
    | (intro _ e he; simp at he; subst he; exact ⟨rfl, rfl⟩)
    | (intro _ e he; simp at he)

/-- The counters and the ending after the flush, case by case. -/
theorem flush_and_finish_state (cfg : settings) (w : world) (st : driver_state) :
    (0 < w.flush →
        (flush_and_finish cfg w st).2.1.frame_count = (st.frame_count + 1) % 2 ^ 32
          ∧ event.fwrite w.flush w.flush_fwrite ∈ (flush_and_finish cfg w st).2.2
          ∧ (0 < w.flush_fwrite →
              (flush_and_finish cfg w st).2.1.total_bytes
                  = (st.total_bytes + w.flush_fwrite) % 2 ^ 32
                ∧ (flush_and_finish cfg w st).1 = .returned ERR_NO_ERROR)
          ∧ (w.flush_fwrite = 0 →
              (flush_and_finish cfg w st).2.1.total_bytes = st.total_bytes
                ∧ (flush_and_finish cfg w st).1 = .exited ERR_WRITING_OUTPUT))
      ∧ (w.flush ≤ 0 →
          (flush_and_finish cfg w st).2.1 = st
            ∧ (flush_and_finish cfg w st).1 = .returned ERR_NO_ERROR) := by
  unfold flush_and_finish
  simp only
  refine ⟨?_, ?_⟩
  · intro hpos
    have hp : w.flush > 0 := hpos
    rw [if_pos hp]
    refine ⟨by split_ifs <;> rfl, by split_ifs <;> simp, ?_, ?_⟩
    · intro hw
      have hn : ¬ ((w.flush_fwrite : Int) ≤ 0) := by omega
      rw [if_neg hn]
      exact ⟨by simp, rfl⟩
    · intro hw
      have hn : (w.flush_fwrite : Int) ≤ 0 := by omega
      rw [if_pos hn]
      exact ⟨rfl, rfl⟩
  · intro hle
    have hp : ¬ w.flush > 0 := by omega
    rw [if_neg hp]
    exact ⟨rfl, rfl⟩

/-! ### The claims on the corrections of the raw input -/

/-- Claim C11. With byte-swap enabled, the step applied to a buffer of 16-bit
samples after a read of `n` samples exchanges the two bytes of each of the
first `n` samples once (new high byte = old low byte, new low byte = old high
byte), leaves every sample at index `n` or above as it was, and applied twice
gives the original buffer back. -/
theorem force_byteswap_exchanges_bytes (cfg : settings) (pcmaudio : List Nat) (n : Nat)
    (hb : cfg.byteswap = true) (h16 : ∀ x ∈ pcmaudio, x < 65536) :
    (force_byteswap cfg pcmaudio n).length = pcmaudio.length
      ∧ (∀ i x, i < n → pcmaudio[i]? = some x →
          (force_byteswap cfg pcmaudio n)[i]? = some (swap_bytes x)
            ∧ swap_bytes x / 256 = x % 256 ∧ swap_bytes x % 256 = x / 256)
      ∧ (∀ i, n ≤ i → (force_byteswap cfg pcmaudio n)[i]? = pcmaudio[i]?)
      ∧ force_byteswap cfg (force_byteswap cfg pcmaudio n) n = pcmaudio := by
  have hf : ∀ pcm, force_byteswap cfg pcm n = byteswap_loop pcm n := by
    intro pcm
    unfold force_byteswap
    rw [if_pos hb]
  simp only [hf]
  refine ⟨byteswap_loop_length pcmaudio n, ?_, ?_, byteswap_loop_twice pcmaudio n h16⟩
  · intro i x hi hx
    have hm : x ∈ pcmaudio := List.getElem?_mem hx
    obtain ⟨h1, h2, -⟩ := swap_bytes_bytes x (h16 x hm)
    refine ⟨?_, h1, h2⟩
    rw [byteswap_loop_getElem?, if_pos hi, hx]
    rfl
  · intro i hi
    rw [byteswap_loop_getElem?, if_neg (by omega)]

/-- Witness for C11: three samples in the buffer, two of them read. -/
theorem force_byteswap_exchanges_bytes_witness :
    swapping_settings.byteswap = true
      ∧ (∀ x ∈ [0x1234, 0xABCD, 0x00FF], x < 65536)
      ∧ force_byteswap swapping_settings [0x1234, 0xABCD, 0x00FF] 2 = [0x3412, 0xCDAB, 0x00FF]
      ∧ force_byteswap swapping_settings
          (force_byteswap swapping_settings [0x1234, 0xABCD, 0x00FF] 2) 2
          = [0x1234, 0xABCD, 0x00FF] :=
  ⟨rfl, by decide, by decide,
   (force_byteswap_exchanges_bytes swapping_settings [0x1234, 0xABCD, 0x00FF] 2 rfl
      (by decide)).2.2.2⟩

/-- Claim C12. For a chunk of `n` interleaved samples inside the buffer: with
channel-swap enabled and exactly 2 channels the step exchanges entries `2*i` and
`2*i+1` for every `i < n/2` and leaves every other entry as it was; with
channel-swap disabled or a channel count other than 2 the buffer is
unchanged. -/
theorem force_channelswap_exchanges_channels (cfg : settings) (pcmaudio : List Nat) (n : Nat)
    (hn : n ≤ pcmaudio.length) :
    (cfg.channelswap = true → cfg.channels = 2 →
        (force_channelswap cfg pcmaudio (n / cfg.channels)).length = pcmaudio.length
          ∧ (∀ i, i < n / 2 →
              (force_channelswap cfg pcmaudio (n / cfg.channels))[2 * i]?
                  = pcmaudio[2 * i + 1]?
                ∧ (force_channelswap cfg pcmaudio (n / cfg.channels))[2 * i + 1]?
                  = pcmaudio[2 * i]?)
          ∧ ∀ j, 2 * (n / 2) ≤ j →
              (force_channelswap cfg pcmaudio (n / cfg.channels))[j]? = pcmaudio[j]?)
      ∧ (cfg.channelswap = false ∨ cfg.channels ≠ 2 →
          ∀ m, force_channelswap cfg pcmaudio m = pcmaudio) := by
  refine ⟨?_, ?_⟩
  · intro hs hc
    have hf : force_channelswap cfg pcmaudio (n / cfg.channels)
        = channelswap_loop pcmaudio (n / 2) := by
      unfold force_channelswap
      rw [if_pos (by simp [hs, hc]), hc]
    have hm : 2 * (n / 2) ≤ pcmaudio.length := by omega
    rw [hf]
    refine ⟨channelswap_loop_length pcmaudio _, ?_, ?_⟩
    · intro i hi
      refine ⟨?_, ?_⟩
      · rw [channelswap_loop_getElem? pcmaudio _ hm, if_pos (by omega), if_pos (by omega)]
      · rw [channelswap_loop_getElem? pcmaudio _ hm, if_pos (by omega), if_neg (by omega)]
        rfl
    · intro j hj
      rw [channelswap_loop_getElem? pcmaudio _ hm, if_neg (by omega)]
  · intro h m
    unfold force_channelswap
    rw [if_neg]
    rcases h with h | h
    · simp [h]
    · simp [h]

/-- Witness for C12: five samples of a stereo chunk; the two complete pairs
are exchanged, the fifth sample stays. -/
theorem force_channelswap_exchanges_channels_witness :
    5 ≤ [1, 2, 3, 4, 5].length
      ∧ force_channelswap swapping_settings [1, 2, 3, 4, 5] (5 / swapping_settings.channels)
          = [2, 1, 4, 3, 5]
      ∧ (force_channelswap swapping_settings [1, 2, 3, 4, 5]
            (5 / swapping_settings.channels)).length = [1, 2, 3, 4, 5].length :=
  ⟨by decide, by decide,
   ((force_channelswap_exchanges_channels swapping_settings [1, 2, 3, 4, 5] 5 (by decide)).1
      rfl rfl).1⟩

/-! ### The claims on the end of the run -/

/-- Claim C13. If `sf_error` reports an error after the loop and the run would
otherwise return `ERR_NO_ERROR`, it still does: the variables end as they would
without the error, and the trace is the one without the error with a single
line on `stderr` put in right before the flush request. -/
theorem main_read_error_only_reported (cfg : settings) (w : world)
    (herr : w.sf_error ≠ 0)
    (hok : (main cfg { w with sf_error := 0 }).ending = .returned ERR_NO_ERROR) :
    (main cfg w).ending = .returned ERR_NO_ERROR
      ∧ ERR_NO_ERROR = 0
      ∧ (main cfg w).state = (main cfg { w with sf_error := 0 }).state
      ∧ ∃ pre post,
          (main cfg { w with sf_error := 0 }).trace
              = pre ++ .twolame_encode_flush w.flush :: post
            ∧ (main cfg w).trace
              = pre ++ .stderr .read_error :: .twolame_encode_flush w.flush :: post := by
  have hnone : (encode_loop cfg (audioReadSize cfg) initial_state w.passes).1 = none := by
    rcases hl : (encode_loop cfg (audioReadSize cfg) initial_state w.passes).1 with _ | e
    · rfl
    · exfalso
      have hl0 : (encode_loop cfg (audioReadSize cfg) initial_state
          ({ w with sf_error := 0 } : world).passes).1 = some e := hl
      rw [main_of_stop cfg _ e hl0] at hok
      rcases encode_loop_stop_ending cfg _ _ _ e hl with h | h | h <;>
        rw [h] at hok <;> cases hok
  have hnone0 : (encode_loop cfg (audioReadSize cfg) initial_state
      ({ w with sf_error := 0 } : world).passes).1 = none := hnone
  rw [main_of_left cfg _ hnone0] at hok ⊢
  rw [main_of_left cfg w hnone]
  have hr : read_error_report w = [.stderr .read_error] := by
    unfold read_error_report; rw [if_pos herr]
  have hr0 : read_error_report { w with sf_error := 0 } = [] := by
    unfold read_error_report; rw [if_neg (by simp)]
  obtain ⟨tail, ht, -⟩ := flush_and_finish_events cfg w
    (encode_loop cfg (audioReadSize cfg) initial_state w.passes).2.1
  refine ⟨hok, rfl, rfl, (encode_loop cfg (audioReadSize cfg) initial_state w.passes).2.2,
    tail, ?_, ?_⟩
  · rw [hr0, List.append_nil]
    exact congrArg _ ht
  · rw [hr, List.append_assoc]
    exact congrArg _ (congrArg _ ht)

/-- Witness for C13: `sf_error` returns 3 after a run that encoded one chunk
and flushed one frame. -/
theorem main_read_error_only_reported_witness :
    read_error_world.sf_error ≠ 0
      ∧ (main stereo_settings { read_error_world with sf_error := 0 }).ending
          = .returned ERR_NO_ERROR
      ∧ (main stereo_settings read_error_world).ending = .returned ERR_NO_ERROR :=
  ⟨by decide, by decide,
   (main_read_error_only_reported stereo_settings read_error_world (by decide) (by decide)).1⟩

/-- Claim C14. In every run whose loop is left without stopping the program,
the flush is requested exactly once, after all events of the loop.  A positive
flush result adds 1 to `frame_count` and is written; the bytes `fwrite` reports
written are added to `total_bytes` (none when it reports 0, and then the run
exits with `ERR_WRITING_OUTPUT`).  A non-positive flush result is followed by no
write and no counter update, leaves both counters as the loop left them, and
the run returns `ERR_NO_ERROR`.  The counters are `unsigned int`: sums are
modulo `2 ^ 32`, the plain sums while below `2 ^ 32`. -/
theorem main_flushes_once (cfg : settings) (w : world)
    (hloop : (encode_loop cfg (audioReadSize cfg) initial_state w.passes).1 = none) :
    (main cfg w).trace.filter event.is_flush = [.twolame_encode_flush w.flush]
      ∧ (∃ tail, (main cfg w).trace
            = (encode_loop cfg (audioReadSize cfg) initial_state w.passes).2.2
              ++ read_error_report w ++ .twolame_encode_flush w.flush :: tail
          ∧ (w.flush ≤ 0 → ∀ e ∈ tail, e.is_write = false ∧ e.is_counter_update = false))
      ∧ (0 < w.flush →
          (main cfg w).state.frame_count
              = ((encode_loop cfg (audioReadSize cfg) initial_state w.passes).2.1.frame_count
                  + 1) % 2 ^ 32
            ∧ ((encode_loop cfg (audioReadSize cfg) initial_state w.passes).2.1.frame_count
                  + 1 < 2 ^ 32 →
                (main cfg w).state.frame_count
                  = (encode_loop cfg (audioReadSize cfg) initial_state
                      w.passes).2.1.frame_count + 1)
            ∧ event.fwrite w.flush w.flush_fwrite ∈ (main cfg w).trace
            ∧ (0 < w.flush_fwrite →
                (main cfg w).state.total_bytes
                    = ((encode_loop cfg (audioReadSize cfg) initial_state
                        w.passes).2.1.total_bytes + w.flush_fwrite) % 2 ^ 32
                  ∧ ((encode_loop cfg (audioReadSize cfg) initial_state
                        w.passes).2.1.total_bytes + w.flush_fwrite < 2 ^ 32 →
                      (main cfg w).state.total_bytes
                        = (encode_loop cfg (audioReadSize cfg) initial_state
                            w.passes).2.1.total_bytes + w.flush_fwrite)
                  ∧ (main cfg w).ending = .returned ERR_NO_ERROR)
            ∧ (w.flush_fwrite = 0 →
                (main cfg w).state.total_bytes
                    = (encode_loop cfg (audioReadSize cfg) initial_state
                        w.passes).2.1.total_bytes
                  ∧ (main cfg w).ending = .exited ERR_WRITING_OUTPUT))
      ∧ (w.flush ≤ 0 →
          (main cfg w).state.frame_count
              = (encode_loop cfg (audioReadSize cfg) initial_state w.passes).2.1.frame_count
            ∧ (main cfg w).state.total_bytes
              = (encode_loop cfg (audioReadSize cfg) initial_state w.passes).2.1.total_bytes
            ∧ (main cfg w).ending = .returned ERR_NO_ERROR) := by
  obtain ⟨tail, ht, hnf, hnw⟩ := flush_and_finish_tail cfg w
    (encode_loop cfg (audioReadSize cfg) initial_state w.passes).2.1
  obtain ⟨hpos, hnonpos⟩ := flush_and_finish_state cfg w
    (encode_loop cfg (audioReadSize cfg) initial_state w.passes).2.1
  rw [main_of_left cfg w hloop]
  refine ⟨?_, ⟨tail, ?_, hnw⟩, ?_, ?_⟩
  · change List.filter event.is_flush
        ((encode_loop cfg (audioReadSize cfg) initial_state w.passes).2.2
          ++ read_error_report w
          ++ (flush_and_finish cfg w
              (encode_loop cfg (audioReadSize cfg) initial_state w.passes).2.1).2.2) = _
    rw [ht, List.filter_append, List.filter_append, List.filter_cons]
    have h1 : List.filter event.is_flush
        (encode_loop cfg (audioReadSize cfg) initial_state w.passes).2.2 = [] :=
      List.filter_eq_nil_iff.mpr (fun e he => by
        rw [encode_loop_no_flush cfg _ _ _ e he]; simp)
    have h2 : List.filter event.is_flush (read_error_report w) = [] :=
      List.filter_eq_nil_iff.mpr (fun e he => by
        rw [read_error_report_no_flush w e he]; simp)
    have h3 : List.filter event.is_flush tail = [] :=
      List.filter_eq_nil_iff.mpr (fun e he => by rw [hnf e he]; simp)
    rw [h1, h2, h3]
    rfl
  · change (encode_loop cfg (audioReadSize cfg) initial_state w.passes).2.2
          ++ read_error_report w
          ++ (flush_and_finish cfg w
              (encode_loop cfg (audioReadSize cfg) initial_state w.passes).2.1).2.2 = _
    rw [ht]
  · intro hp
    obtain ⟨hfc, hwr, hw1, hw0⟩ := hpos hp
    refine ⟨hfc, ?_, ?_, ?_, hw0⟩
    · intro hlt
      exact hfc.trans (Nat.mod_eq_of_lt hlt)
    · exact List.mem_append_right _ hwr
    · intro hw
      obtain ⟨htb, hend⟩ := hw1 hw
      exact ⟨htb, fun hlt => htb.trans (Nat.mod_eq_of_lt hlt), hend⟩
  · intro hle
    obtain ⟨hst, hend⟩ := hnonpos hle
    exact ⟨congrArg driver_state.frame_count hst, congrArg driver_state.total_bytes hst, hend⟩

/-- Witness for C14: a run of two chunks, the second too short for a frame;
the flush yields the last frame. -/
theorem main_flushes_once_witness :
    (encode_loop stereo_settings (audioReadSize stereo_settings) initial_state
        read_error_world.passes).1 = none
      ∧ (main stereo_settings read_error_world).trace.filter event.is_flush
          = [.twolame_encode_flush read_error_world.flush]
      ∧ (main stereo_settings read_error_world).state.frame_count = 2
      ∧ (main stereo_settings read_error_world).state.total_bytes = 834 :=
  ⟨by decide, (main_flushes_once stereo_settings read_error_world (by decide)).1,
   by decide, by decide⟩

/-- Claim C15. For every configuration, `get_required_dvb_bits` returns a
multiple of 8 between 40 and 96, and the block `write_dvb_bits` appends is a
whole number of bytes, between 5 and 12. -/
theorem dvb_block_whole_bytes (glopts : twolame_options) (bs : bit_stream) :
    8 ∣ get_required_dvb_bits glopts
      ∧ 40 ≤ get_required_dvb_bits glopts
      ∧ get_required_dvb_bits glopts ≤ 96
      ∧ (write_dvb_bits glopts bs).length
          = bs.length + 8 * (get_required_dvb_bits glopts / 8)
      ∧ 5 ≤ get_required_dvb_bits glopts / 8
      ∧ get_required_dvb_bits glopts / 8 ≤ 12 := by
  have hlen : (write_dvb_bits glopts bs).length
      = bs.length + get_required_dvb_bits glopts := by
    rw [write_dvb_bits_eq_append_layout, List.length_append]
    simp only [dvb_layout, dvb_conditional_fields, get_required_dvb_bits]
    split_ifs <;> simp [msb_first_length]
  have hg : 8 ∣ get_required_dvb_bits glopts ∧ 40 ≤ get_required_dvb_bits glopts
      ∧ get_required_dvb_bits glopts ≤ 96 := by
    simp only [get_required_dvb_bits]
    split_ifs <;> omega
  obtain ⟨h8, hlo, hhi⟩ := hg
  refine ⟨h8, hlo, hhi, ?_, ?_, ?_⟩ <;> omega

end TwoLAME
